import Mathlib

/-!
# Verification of the `primecitizens/cli` argument-processing core

This file gives a shallow embedding, in Lean 4, of the core of the
`primecitizens/cli` Go library (flag parser, flag rules, route lookup,
value peekers, size/duration grammars, completion engine) and proves or
refutes the claims of the natural-language specification against it.

Modelling conventions:

* Go strings are modelled at rune granularity as `List Char` (`GoStr`).
* Go machine integers are modelled as `Nat`/`Int`, with an explicit
  `% 2^64` where the Go code relies on `uint64` wraparound.
* Fallible Go code returns `Option`/`Except`; a Go `panic` is modelled
  by the `Except`-error `GoPanic`.
* Go interfaces become records of functions over an abstract flag-storage
  state `σ` (the ambient heap of all flag cells); functions that Go runs
  for effect on that heap return an updated `σ`.
* Non-positive occurrences that Go expresses with function-typed struct
  fields receiving the struct itself (help/error handler callbacks whose
  signature mentions `*ParseOptions` / `Route`) are modelled with those
  parameters dropped; every claim below exercises them only as `nil`.
* Go standard-library collaborators (`strconv`, `sort.Search`,
  `time.ParseInLocation`, `regexp.Compile`, float parsing) are either
  modelled from their documented behavior or abstracted as parameters;
  in each case this is noted at the definition.
-/

namespace CliV

/-- Go strings as lists of runes. -/
abbrev GoStr := List Char

/-- Convert a Lean string literal to the Go string model. -/
def gs (s : String) : GoStr := s.toList

/-- `strings.Cut(s, sep)`: cut `s` at the first occurrence of the
(nonempty) separator `sep`, returning (before, after, found). -/
def goCut (s sep : GoStr) : GoStr × GoStr × Bool :=
  match s with
  | [] => ([], [], false)
  | c :: rest =>
    if sep.isPrefixOf s then ([], s.drop sep.length, true)
    else
      let r := goCut rest sep
      (c :: r.1, r.2.1, r.2.2)

/-- `strings.HasPrefix`. -/
def goHasPrefix (s pre : GoStr) : Bool := pre.isPrefixOf s

/-- Cutting a nonempty string at a nonempty separator strictly shrinks
the part after the separator. -/
theorem goCut_after_length (s sep : GoStr) (hsep : sep ≠ []) :
    s ≠ [] → (goCut s sep).2.1.length < s.length := by
  induction s with
  | nil => intro h; exact absurd rfl h
  | cons c rest ih =>
    intro _
    rw [goCut]
    by_cases hp : sep.isPrefixOf (c :: rest)
    · simp only [hp, if_true]
      have h1 : 1 ≤ sep.length := by
        cases sep with
        | nil => exact absurd rfl hsep
        | cons a l => simp
      simp only [List.length_drop, List.length_cons]
      omega
    · simp only [hp, Bool.false_eq_true, if_false]
      show (goCut rest sep).2.1.length < (c :: rest).length
      cases rest with
      | nil => simp [goCut]
      | cons a l =>
        have := ih (by simp)
        simp only [List.length_cons] at this ⊢
        omega

/-- Model of `sort.Search(n, f)` from the Go standard library: the
smallest `i < n` with `f i = true`, or `n` when there is none (this is
the documented result of the stdlib binary search for monotone `f`). -/
def goSortSearch (n : Nat) (f : Nat → Bool) : Nat :=
  ((List.range n).findIdx? f).getD n

/-- Modelled from the spec: `IsShorthand` (the flag names helper of the
missing `flag.go`): a shorthand is exactly one code point and not `-`. -/
def isShorthand (s : GoStr) : Bool :=
  s.length == 1 && s != gs "-"

/-- A Go `panic` outcome. -/
inductive GoPanic where
  | msg (text : String)
  | nilDeref
  deriving Repr, DecidableEq

/-- Computations that may panic. -/
abbrev PanicOr (α : Type _) := Except GoPanic α

/-- Value-level errors: errors produced while decoding a single flag
value (`ErrInvalidValue`, the `strconv` sentinel errors, and opaque
application errors).  They are what `Flag.Decode` returns and what the
parser wraps as the `Reason` of an `ErrFlagValueInvalid`. -/
inductive GoValErr where
  | invalidValue (type_ : String) (partial_ : Bool) (value : GoStr)
  | errRange
  | errSyntax
  | other (tag : String)
  deriving Repr, DecidableEq

/-- The closed error taxonomy of the library (flag parsing / dispatch
errors that travel through `error` values in Go). -/
inductive GoErr where
  | flagUndefined (name : GoStr) (at_ : Int)
  | flagValueMissing (name : GoStr) (at_ : Int)
  | flagValueInvalid (name value : GoStr) (nameAt valueAt : Int)
      (reason : Option GoValErr)
  | ambiguousArgs (name value : GoStr) (at_ : Int)
  | shorthandOfExplicitFlagInMiddle (shorthand cluster value : GoStr)
  | duplicateFlag (name : GoStr)
  | helpPending (helpArg : GoStr) (at_ : Int)
  | helpHandled
  | cmdNotRunnable (name : GoStr)
  | flagSetAtMostOnce
  | valErr (e : GoValErr)
  deriving Repr, DecidableEq

/-- Modelled from the spec: `FlagState` of the missing `flag.go`; the
spec gives the state bits {value-changed, hidden, set-at-most-once}. -/
structure FlagStateM where
  valueChanged : Bool := false
  hidden : Bool := false
  setAtMostOnce : Bool := false
  deriving Repr, DecidableEq

/-- `FlagInfo`: name pack of a flag (part_001). -/
structure FlagInfoM where
  name : GoStr := []
  shorthand : GoStr := []
  defaultValue : GoStr := []
  state : FlagStateM := {}
  deriving Repr, DecidableEq

/-! ## Flag rules (part_002)

`Rule` is the closed family of rule values built by the constructors
`RuleAny`, `AllOf`, `AllOrNone`, `OneOf`, `AnyOf`, `DependOn` and
`MultiRule`.  The Go `Inspector` interface is a single method
`CheckFlagValueChanged(key) bool`; since the library's own inspector
(`Route.CheckFlagValueChanged`) can panic, an inspector is modelled as
`GoStr → Except ε Bool` for an arbitrary error type `ε`; a pure
inspector is the special case `fun k => .ok (f k)`. -/

/-- `ViolationCode` (part_002). -/
inductive ViolationCode where
  | noViolation
  | emptyAllOf
  | partialAllOf
  | partialAllOrNone
  | excessiveOneOf
  | emptyOneOf
  | emptyAnyOf
  deriving Repr, DecidableEq

/-- `Violation` (part_002). -/
structure Violation where
  key : GoStr
  reason : ViolationCode
  deriving Repr, DecidableEq

/-- The rule family of part_002 as one inductive (the Go code uses one
struct per constructor, all implementing the `Rule` interface). -/
inductive RuleM where
  | anyR
  | allOf (keys : List GoStr)
  | allOrNone (keys : List GoStr)
  | oneOf (keys : List GoStr)
  | anyOf (keys : List GoStr)
  | depends (if_ then_ else_ : RuleM)
  | multi (rules : List RuleM)

/-- `sliceContains` (part_002) specialized to one key. -/
def sliceContains (ss : List GoStr) (key : GoStr) : Bool :=
  ss.any (fun x => x == key)

/-- `Rule.Contains` for each rule (part_002). -/
def ruleContains : RuleM → GoStr → Bool
  | .anyR, _ => false
  | .allOf keys, k => sliceContains keys k
  | .allOrNone keys, k => sliceContains keys k
  | .oneOf keys, k => sliceContains keys k
  | .anyOf keys, k => sliceContains keys k
  | .depends a b c, k => ruleContains a k || ruleContains b k || ruleContains c k
  | .multi rs, k => rs.attach.any (fun r => ruleContains r.1 k)
termination_by r _ => sizeOf r
decreasing_by
  all_goals simp_wf
  all_goals try omega
  have := List.sizeOf_lt_of_mem r.2
  omega

/-- The first scanning loop of `RuleAllOf.NthEx` (part_002 lines
181-203): walks the keys tracking `someNotSet`, `someSet` and
`idxFirstNotSet`, breaking as soon as both flags are set.  Returns the
triple `(someNotSet, someSet, idxFirstNotSet)`. -/
def allOfScan (f : GoStr → Except ε Bool) :
    List GoStr → Nat → Bool → Bool → Nat → Except ε (Bool × Bool × Nat)
  | [], _, sns, ss, idx => .ok (sns, ss, idx)
  | name :: rest, j, sns, ss, idx => do
    if (← f name) then
      if sns then pure (sns, true, idx)
      else allOfScan f rest (j + 1) sns true idx
    else
      let (sns', idx') := if !sns then (true, j) else (sns, idx)
      if ss then pure (sns', ss, idx')
      else allOfScan f rest (j + 1) sns' ss idx'

/-- The second loop of `RuleAllOf.NthEx` / `RuleAllOrNone.NthEx`: from
the sub-list starting at `idxFirstNotSet`, pick the `i`-th key whose
value is not changed. -/
def pickUnset (f : GoStr → Except ε Bool) :
    List GoStr → Int → Except ε (Option GoStr)
  | [], _ => .ok none
  | k :: rest, i => do
    if (← f k) then pickUnset f rest i
    else if i == 0 then pure (some k) else pickUnset f rest (i - 1)

/-- The second loop of `RuleOneOf.NthEx`: from the sub-list starting at
`idxSecondSet`, pick the `i`-th key whose value IS changed. -/
def pickSet (f : GoStr → Except ε Bool) :
    List GoStr → Int → Except ε (Option GoStr)
  | [], _ => .ok none
  | k :: rest, i => do
    if (← f k) then
      if i == 0 then pure (some k) else pickSet f rest (i - 1)
    else pickSet f rest i

/-- `RuleAllOf.NthEx` (part_002 lines 176-224). -/
def allOfNthEx (keys : List GoStr) (f : GoStr → Except ε Bool) (i : Int) :
    Except ε (Option Violation) :=
  if i < 0 then .ok none
  else do
    let (someNotSet, someSet, idxFirstNotSet) ← allOfScan f keys 0 false false 0
    if someNotSet then
      match (← pickUnset f (keys.drop idxFirstNotSet) i) with
      | some k =>
        if someSet then pure (some ⟨k, .partialAllOf⟩)
        else pure (some ⟨k, .emptyAllOf⟩)
      | none => pure none
    else pure none

/-- The first scanning loop of `RuleAllOrNone.NthEx` (part_002 lines
253-275); returns `(someSet, someNotSet, idxFirstNotSet)`. -/
def allOrNoneScan (f : GoStr → Except ε Bool) :
    List GoStr → Nat → Bool → Bool → Nat → Except ε (Bool × Bool × Nat)
  | [], _, ss, sns, idx => .ok (ss, sns, idx)
  | name :: rest, j, ss, sns, idx => do
    if (← f name) then
      if sns then pure (true, sns, idx)
      else allOrNoneScan f rest (j + 1) true sns idx
    else
      if !sns then
        if ss then pure (ss, true, j)
        else allOrNoneScan f rest (j + 1) ss true j
      else allOrNoneScan f rest (j + 1) ss sns idx

/-- `RuleAllOrNone.NthEx` (part_002 lines 248-292). -/
def allOrNoneNthEx (keys : List GoStr) (f : GoStr → Except ε Bool) (i : Int) :
    Except ε (Option Violation) :=
  if i < 0 then .ok none
  else do
    let (someSet, someNotSet, idxFirstNotSet) ← allOrNoneScan f keys 0 false false 0
    if someSet && someNotSet then
      match (← pickUnset f (keys.drop idxFirstNotSet) i) with
      | some k => pure (some ⟨k, .partialAllOrNone⟩)
      | none => pure none
    else pure none

/-- The first scanning loop of `RuleOneOf.NthEx` (part_002 lines
321-337); returns `(someSet, idxSecondSet)` where `idxSecondSet` keeps
its zero value when fewer than two keys are changed. -/
def oneOfScan (f : GoStr → Except ε Bool) :
    List GoStr → Nat → Bool → Except ε (Bool × Nat)
  | [], _, ss => .ok (ss, 0)
  | name :: rest, j, ss => do
    if (← f name) then
      if !ss then oneOfScan f rest (j + 1) true
      else pure (true, j)
    else oneOfScan f rest (j + 1) ss

/-- `RuleOneOf.NthEx` (part_002 lines 316-362). -/
def oneOfNthEx (keys : List GoStr) (f : GoStr → Except ε Bool) (i : Int) :
    Except ε (Option Violation) :=
  if i < 0 then .ok none
  else do
    let (someSet, idxSecondSet) ← oneOfScan f keys 0 false
    if !someSet then
      if i < (keys.length : Int) && i >= 0 then
        pure (some ⟨keys.getD i.toNat [], .emptyOneOf⟩)
      else pure none
    else if idxSecondSet != 0 then
      match (← pickSet f (keys.drop idxSecondSet) i) with
      | some k => pure (some ⟨k, .excessiveOneOf⟩)
      | none => pure none
    else pure none

/-- The scanning loop of `RuleAnyOf.NthEx` (part_002 lines 391-397):
`someSet` with early break at the first changed key. -/
def anyOfSomeSet (f : GoStr → Except ε Bool) : List GoStr → Except ε Bool
  | [] => .ok false
  | k :: rest => do
    if (← f k) then pure true else anyOfSomeSet f rest

/-- `RuleAnyOf.NthEx` (part_002 lines 386-404). -/
def anyOfNthEx (keys : List GoStr) (f : GoStr → Except ε Bool) (i : Int) :
    Except ε (Option Violation) :=
  if i < 0 then .ok none
  else do
    let someSet ← anyOfSomeSet f keys
    if !someSet && i < (keys.length : Int) && i >= 0 then
      pure (some ⟨keys.getD i.toNat [], .emptyAnyOf⟩)
    else pure none

/-- An upper bound on the number of violations a rule can report; used
as loop fuel for the unbounded `for j := 0; ; j++` scans of
`RuleDepends.NthEx` and `MultiRule.NthEx` (which in Go terminate
because the inner `NthEx` runs out of violations). -/
def ruleSize : RuleM → Nat
  | .anyR => 0
  | .allOf keys => keys.length
  | .allOrNone keys => keys.length
  | .oneOf keys => keys.length
  | .anyOf keys => keys.length
  | .depends _ b c => max (ruleSize b) (ruleSize c)
  | .multi rs => (rs.attach.map (fun r => ruleSize r.1)).sum
termination_by r => sizeOf r
decreasing_by
  all_goals simp_wf
  all_goals try omega
  have := List.sizeOf_lt_of_mem r.2
  omega

/-- The inner violation-stream loop of `RuleDepends.NthEx` (part_002
lines 458-484): query `nth 0, nth 1, …` until the stream ends, returning
the element at which the decremented `i` reaches `0`. -/
def drainViol (fuel : Nat) (nth : Nat → Except ε (Option Violation)) (i : Int) :
    Except ε (Option Violation) :=
  match fuel with
  | 0 => .ok none
  | fuel' + 1 => do
    match (← nth 0) with
    | none => pure none
    | some p =>
      if i == 0 then pure (some p)
      else drainViol fuel' (fun k => nth (k + 1)) (i - 1)

/-- The inner loop of `MultiRule.NthEx` (part_002 lines 118-131): like
`drainViol` but, when the sub-rule's stream ends first, hands the
leftover index `i` back for the next sub-rule. -/
def multiDrain (fuel : Nat) (nth : Nat → Except ε (Option Violation)) (i : Int) :
    Except ε (Violation ⊕ Int) :=
  match fuel with
  | 0 => .ok (.inr i)
  | fuel' + 1 => do
    match (← nth 0) with
    | none => pure (.inr i)
    | some v =>
      if i == 0 then pure (.inl v)
      else multiDrain fuel' (fun k => nth (k + 1)) (i - 1)

mutual

/-- `Rule.NthEx` for every rule of part_002 (`RuleAny.NthEx`,
`RuleAllOf.NthEx`, `RuleAllOrNone.NthEx`, `RuleOneOf.NthEx`,
`RuleAnyOf.NthEx`, `RuleDepends.NthEx`, `MultiRule.NthEx`). -/
def ruleNthEx : RuleM → (GoStr → Except ε Bool) → Int → Except ε (Option Violation)
  | .anyR, _, _ => .ok none
  | .allOf keys, f, i => allOfNthEx keys f i
  | .allOrNone keys, f, i => allOrNoneNthEx keys f i
  | .oneOf keys, f, i => oneOfNthEx keys f i
  | .anyOf keys, f, i => anyOfNthEx keys f i
  | .depends a b c, f, i =>
    if i < 0 then .ok none
    else do
      match (← ruleNthEx a f 0) with
      | some _ => drainViol (ruleSize c + 1) (fun k => ruleNthEx c f (k : Int)) i
      | none => drainViol (ruleSize b + 1) (fun k => ruleNthEx b f (k : Int)) i
  | .multi rs, f, i => multiNthEx rs f i
termination_by r _ _ => sizeOf r
decreasing_by
  all_goals simp_wf
  all_goals omega

/-- `MultiRule.NthEx`'s outer loop over the member rules. -/
def multiNthEx : List RuleM → (GoStr → Except ε Bool) → Int → Except ε (Option Violation)
  | [], _, _ => .ok none
  | r :: rest, f, i => do
    match (← multiDrain (ruleSize r + 1) (fun k => ruleNthEx r f (k : Int)) i) with
    | .inl v => pure (some v)
    | .inr i' => multiNthEx rest f i'
termination_by rs _ _ => sizeOf rs
decreasing_by
  all_goals simp_wf
  all_goals omega

end

/-- A pure inspector (one that cannot fail), as used by the spec's
rule semantics: `changed(k)` is just a boolean predicate. -/
def okInspector (f : GoStr → Bool) : GoStr → Except ε Bool :=
  fun k => .ok (f k)

/-- The structural rule semantics of spec §4.5, written from the spec's
words: the full, finite violation list of a rule under a `changed`
predicate.
  * AllOf: one violation per unchanged key; code is empty-all-of when
    no key is changed, partial-all-of otherwise.
  * AllOrNone: the unchanged keys (as partial-all-or-none) iff both a
    changed and an unchanged key exist.
  * OneOf: every key as empty-one-of when none is changed; the
    second-onward changed keys as excessive-one-of when ≥ 2 changed.
  * AnyOf: every key as empty-any-of when none is changed.
  * Depends: `then` iff `if` has no violation, else `else`.
  * Multi: concatenation in declaration order. -/
def ruleViolations : RuleM → (GoStr → Bool) → List Violation
  | .anyR, _ => []
  | .allOf keys, f =>
    (keys.filter (fun k => !f k)).map
      (fun k => ⟨k, if keys.any f then .partialAllOf else .emptyAllOf⟩)
  | .allOrNone keys, f =>
    if keys.any f && keys.any (fun k => !f k) then
      (keys.filter (fun k => !f k)).map (fun k => ⟨k, .partialAllOrNone⟩)
    else []
  | .oneOf keys, f =>
    if keys.any f then
      ((keys.filter f).drop 1).map (fun k => ⟨k, .excessiveOneOf⟩)
    else keys.map (fun k => ⟨k, .emptyOneOf⟩)
  | .anyOf keys, f =>
    if keys.any f then [] else keys.map (fun k => ⟨k, .emptyAnyOf⟩)
  | .depends a b c, f =>
    if (ruleViolations a f).isEmpty then ruleViolations b f
    else ruleViolations c f
  | .multi rs, f => (rs.attach.map (fun r => ruleViolations r.1 f)).flatten
termination_by r => sizeOf r
decreasing_by
  all_goals simp_wf
  all_goals try omega
  have := List.sizeOf_lt_of_mem r.2
  omega

/-- The index (into the key list) of the `n`-th changed key, if any. -/
def nthSetIdx (f : GoStr → Bool) : List GoStr → Nat → Option Nat
  | [], _ => none
  | k :: rest, n =>
    if f k then
      if n = 0 then some 0 else (nthSetIdx f rest (n - 1)).map (· + 1)
    else (nthSetIdx f rest n).map (· + 1)

/-- Reduction of an `Except` bind on a success value. -/
@[simp] theorem exceptBind_ok (a : α) (g : α → Except ε β) :
    (Except.ok a >>= g) = g a := rfl

/-- `pure` into `Except` is `Except.ok`. -/
@[simp] theorem exceptPure_eq (a : α) : (pure a : Except ε α) = Except.ok a := rfl

@[simp] theorem okInspector_apply (f : GoStr → Bool) (k : GoStr) :
    okInspector (ε := ε) f k = .ok (f k) := rfl

theorem allOfScan_ok (f : GoStr → Bool) (keys : List GoStr) :
    ∀ (j : Nat) (sns ss : Bool) (idx : Nat), (sns = false ∨ ss = false) →
    allOfScan (ε := ε) (okInspector f) keys j sns ss idx =
      .ok (sns || keys.any (fun k => !f k), ss || keys.any f,
        if sns then idx
        else (List.findIdx? (fun k => !f k) keys j).getD idx) := by
  induction keys with
  | nil => intro j sns ss idx _; simp [allOfScan, List.findIdx?]
  | cons k rest ih =>
    intro j sns ss idx hinv
    simp only [allOfScan, okInspector_apply, exceptBind_ok, exceptPure_eq]
    by_cases hf : f k
    · simp only [hf, if_true]
      cases sns with
      | true =>
        simp [List.any_cons, hf, List.findIdx?_cons]
      | false =>
        rw [ih (j + 1) false true idx (Or.inl rfl)]
        simp [List.any_cons, hf, List.findIdx?_cons]
    · simp only [hf, Bool.false_eq_true, if_false]
      cases ss with
      | true =>
        have hsns : sns = false := by
          rcases hinv with h | h
          · exact h
          · exact absurd h (by simp)
        subst hsns
        simp [List.any_cons, hf, List.findIdx?_cons]
      | false =>
        cases sns with
        | true =>
          simp only [Bool.not_true, Bool.false_eq_true, if_false]
          rw [ih (j + 1) true false idx (Or.inr rfl)]
          simp [List.any_cons, hf]
        | false =>
          simp only [Bool.not_false, if_true, Bool.false_eq_true, if_false]
          rw [ih (j + 1) true false j (Or.inr rfl)]
          simp [List.any_cons, hf, List.findIdx?_cons]


theorem pickUnset_ok (f : GoStr → Bool) (keys : List GoStr) :
    ∀ (i : Nat), pickUnset (ε := ε) (okInspector f) keys (i : Int) =
      .ok ((keys.filter (fun k => !f k))[i]?) := by
  induction keys with
  | nil => intro i; simp [pickUnset]
  | cons k rest ih =>
    intro i
    simp only [pickUnset, okInspector_apply, exceptBind_ok]
    by_cases hf : f k
    · simp [hf, List.filter_cons, ih i]
    · cases i with
      | zero => simp [hf, List.filter_cons]
      | succ m =>
        have : ((m + 1 : Nat) : Int) - 1 = (m : Int) := by omega
        simp only [hf, Bool.false_eq_true, if_false, List.filter_cons,
          Bool.not_eq_true]
        rw [if_neg (by simp only [beq_iff_eq]; omega), this, ih m]
        simp [hf]

theorem pickSet_ok (f : GoStr → Bool) (keys : List GoStr) :
    ∀ (i : Nat), pickSet (ε := ε) (okInspector f) keys (i : Int) =
      .ok ((keys.filter f)[i]?) := by
  induction keys with
  | nil => intro i; simp [pickSet]
  | cons k rest ih =>
    intro i
    simp only [pickSet, okInspector_apply, exceptBind_ok]
    by_cases hf : f k
    · cases i with
      | zero => simp [hf, List.filter_cons]
      | succ m =>
        have : ((m + 1 : Nat) : Int) - 1 = (m : Int) := by omega
        simp only [hf, if_true, List.filter_cons]
        rw [if_neg (by simp only [beq_iff_eq]; omega), this, ih m]
        simp [hf]
    · simp [hf, List.filter_cons, ih i]

/-- Keys before the first unchanged key (at absolute position `u`, as
reported by `findIdx?`) are all changed, so dropping them does not
change the filtered unchanged-key list. -/
theorem filter_drop_of_findIdx? (p : GoStr → Bool) (keys : List GoStr) :
    ∀ (u : Nat), List.findIdx? p keys = some u →
      (keys.drop u).filter p = keys.filter p := by
  induction keys with
  | nil => intro u h; simp [List.findIdx?] at h
  | cons k rest ih =>
    intro u h
    rw [List.findIdx?_cons] at h
    by_cases hp : p k
    · simp [hp] at h
      subst h
      simp
    · simp only [hp, Bool.false_eq_true, if_false] at h
      rw [List.findIdx?_succ] at h
      cases hr : List.findIdx? p rest with
      | none => simp [hr] at h
      | some v =>
        simp [hr] at h
        subst h
        simp only [List.drop_succ_cons, List.filter_cons, hp,
          Bool.false_eq_true, if_false]
        exact ih v hr

theorem findIdx?_isSome_of_any (p : GoStr → Bool) (keys : List GoStr)
    (h : keys.any p = true) : (List.findIdx? p keys).isSome := by
  induction keys with
  | nil => simp at h
  | cons k rest ih =>
    rw [List.findIdx?_cons]
    by_cases hp : p k
    · simp [hp]
    · rw [List.any_cons, Bool.or_eq_true] at h
      have h2 : rest.any p = true := by
        rcases h with h | h
        · exact absurd h hp
        · exact h
      rw [List.findIdx?_succ]
      simp only [hp, Bool.false_eq_true, if_false]
      have := ih h2
      cases hr : List.findIdx? p rest with
      | none => rw [hr] at this; simp at this
      | some v => simp

/-- `RuleAllOf.NthEx` under a pure inspector enumerates exactly the
structural AllOf violation list. -/
theorem allOfNthEx_ok (keys : List GoStr) (f : GoStr → Bool) (i : Nat) :
    allOfNthEx (ε := ε) keys (okInspector f) (i : Int) =
      .ok ((ruleViolations (.allOf keys) f)[i]?) := by
  rw [allOfNthEx, if_neg (by omega)]
  rw [show ((i : Int) = (i : Nat)) from rfl]
  rw [allOfScan_ok f keys 0 false false 0 (Or.inl rfl)]
  simp only [exceptBind_ok, Bool.false_or]
  by_cases hsns : keys.any (fun k => !f k)
  · simp only [hsns, if_true]
    have hfind := findIdx?_isSome_of_any _ keys hsns
    cases hu : List.findIdx? (fun k => !f k) keys with
    | none => rw [hu] at hfind; simp at hfind
    | some u =>
      simp only [hu, Option.getD_some, Bool.false_eq_true, if_false]
      rw [pickUnset_ok, filter_drop_of_findIdx? _ keys u hu]
      simp only [exceptBind_ok, ruleViolations]
      cases hg : (keys.filter (fun k => !f k))[i]? with
      | none => simp [hg]
      | some kk =>
        by_cases hss : keys.any f
        · simp [hg, hss]
        · simp [hg, hss]
  · simp only [hsns, Bool.false_eq_true, if_false]
    have hall : ∀ a ∈ keys, ¬((fun k => !f k) a = true) := by
      intro a ha hcon
      exact hsns (List.any_eq_true.mpr ⟨a, ha, hcon⟩)
    have : keys.filter (fun k => !f k) = [] := List.filter_eq_nil_iff.mpr hall
    simp [ruleViolations, this]


theorem allOrNoneScan_ok (f : GoStr → Bool) (keys : List GoStr) :
    ∀ (j : Nat) (ss sns : Bool) (idx : Nat), (ss = false ∨ sns = false) →
    allOrNoneScan (ε := ε) (okInspector f) keys j ss sns idx =
      .ok (ss || keys.any f, sns || keys.any (fun k => !f k),
        if sns then idx
        else (List.findIdx? (fun k => !f k) keys j).getD idx) := by
  induction keys with
  | nil => intro j ss sns idx _; simp [allOrNoneScan, List.findIdx?]
  | cons k rest ih =>
    intro j ss sns idx hinv
    simp only [allOrNoneScan, okInspector_apply, exceptBind_ok, exceptPure_eq]
    by_cases hf : f k
    · simp only [hf, if_true]
      cases sns with
      | true => simp [List.any_cons, hf]
      | false =>
        rw [ih (j + 1) true false idx (Or.inr rfl)]
        simp [List.any_cons, hf, List.findIdx?_cons]
    · simp only [hf, Bool.false_eq_true, if_false]
      cases sns with
      | false =>
        simp only [Bool.not_false, if_true]
        cases ss with
        | true => simp [List.any_cons, hf, List.findIdx?_cons]
        | false =>
          rw [ih (j + 1) false true j (Or.inl rfl)]
          simp [List.any_cons, hf, List.findIdx?_cons]
      | true =>
        have hss : ss = false := by
          rcases hinv with h | h
          · exact h
          · exact absurd h (by simp)
        subst hss
        simp only [Bool.not_true, Bool.false_eq_true, if_false]
        rw [ih (j + 1) false true idx (Or.inl rfl)]
        simp [List.any_cons, hf]

theorem allOrNoneNthEx_ok (keys : List GoStr) (f : GoStr → Bool) (i : Nat) :
    allOrNoneNthEx (ε := ε) keys (okInspector f) (i : Int) =
      .ok ((ruleViolations (.allOrNone keys) f)[i]?) := by
  rw [allOrNoneNthEx, if_neg (by omega)]
  rw [show ((i : Int) = (i : Nat)) from rfl]
  rw [allOrNoneScan_ok f keys 0 false false 0 (Or.inl rfl)]
  simp only [exceptBind_ok, Bool.false_or]
  by_cases hss : keys.any f
  · by_cases hsns : keys.any (fun k => !f k)
    · simp only [hss, hsns, Bool.and_self, if_true, Bool.false_eq_true, if_false]
      have hfind := findIdx?_isSome_of_any _ keys hsns
      cases hu : List.findIdx? (fun k => !f k) keys with
      | none => rw [hu] at hfind; simp at hfind
      | some u =>
        simp only [hu, Option.getD_some]
        rw [pickUnset_ok, filter_drop_of_findIdx? _ keys u hu]
        simp only [exceptBind_ok, ruleViolations, hss, hsns, Bool.and_self,
          if_true]
        cases hg : (keys.filter (fun k => !f k))[i]? with
        | none => simp [hg]
        | some kk => simp [hg]
    · simp only [hss, hsns, Bool.and_false, Bool.false_eq_true, if_false,
        ruleViolations, Bool.and_true]
      simp
  · simp only [hss, Bool.false_and, Bool.false_eq_true, if_false,
      ruleViolations, Bool.false_and]
    simp

theorem oneOfScan_ok (f : GoStr → Bool) (keys : List GoStr) :
    ∀ (j : Nat) (ss : Bool),
    oneOfScan (ε := ε) (okInspector f) keys j ss =
      .ok (ss || keys.any f,
        ((nthSetIdx f keys (if ss then 0 else 1)).map (fun u => j + u)).getD 0) := by
  induction keys with
  | nil => intro j ss; simp [oneOfScan, nthSetIdx]
  | cons k rest ih =>
    intro j ss
    simp only [oneOfScan, okInspector_apply, exceptBind_ok, exceptPure_eq]
    by_cases hf : f k
    · simp only [hf, if_true]
      cases ss with
      | false =>
        simp only [Bool.not_false, if_true]
        rw [ih (j + 1) true]
        simp only [List.any_cons, hf, Bool.true_or, Bool.or_true,
          nthSetIdx, if_true, if_false]
        cases hn : nthSetIdx f rest 0 with
        | none => simp [hn]
        | some u => simp [hn]; omega
      | true =>
        simp only [Bool.not_true, Bool.false_eq_true, if_false]
        simp [List.any_cons, hf, nthSetIdx]
    · simp only [hf, Bool.false_eq_true, if_false]
      rw [ih (j + 1) ss]
      simp only [List.any_cons, hf, Bool.false_or, nthSetIdx]
      cases ss with
      | false =>
        simp only [Bool.false_eq_true, if_false]
        cases hn : nthSetIdx f rest 1 with
        | none => simp [hn]
        | some u => simp [hn]; omega
      | true =>
        simp only [if_true]
        cases hn : nthSetIdx f rest 0 with
        | none => simp [hn]
        | some u => simp [hn]; omega

theorem nthSetIdx_le (f : GoStr → Bool) (keys : List GoStr) :
    ∀ (n u : Nat), nthSetIdx f keys n = some u → n ≤ u := by
  induction keys with
  | nil => intro n u h; simp [nthSetIdx] at h
  | cons k rest ih =>
    intro n u h
    by_cases hf : f k
    · cases n with
      | zero => omega
      | succ m =>
        simp only [nthSetIdx, hf, if_true, Nat.succ_ne_zero, if_false,
          Nat.add_sub_cancel] at h
        cases hr : nthSetIdx f rest m with
        | none => rw [hr] at h; simp at h
        | some v =>
          rw [hr] at h
          simp at h
          have := ih m v hr
          omega
    · simp only [nthSetIdx, hf, Bool.false_eq_true, if_false] at h
      cases hr : nthSetIdx f rest n with
      | none => rw [hr] at h; simp at h
      | some v =>
        rw [hr] at h
        simp at h
        have := ih n v hr
        omega

theorem nthSetIdx_drop_filter (f : GoStr → Bool) (keys : List GoStr) :
    ∀ (n u : Nat), nthSetIdx f keys n = some u →
      (keys.drop u).filter f = (keys.filter f).drop n := by
  induction keys with
  | nil => intro n u h; simp [nthSetIdx] at h
  | cons k rest ih =>
    intro n u h
    by_cases hf : f k
    · cases n with
      | zero =>
        simp only [nthSetIdx, hf, if_true] at h
        have : u = 0 := by simpa using h.symm
        subst this
        simp
      | succ m =>
        simp only [nthSetIdx, hf, if_true, Nat.succ_ne_zero, if_false,
          Nat.add_sub_cancel] at h
        cases hr : nthSetIdx f rest m with
        | none => rw [hr] at h; simp at h
        | some v =>
          rw [hr] at h
          simp at h
          subst h
          simp only [List.drop_succ_cons, List.filter_cons, hf, if_true]
          exact ih m v hr
    · simp only [nthSetIdx, hf, Bool.false_eq_true, if_false] at h
      cases hr : nthSetIdx f rest n with
      | none => rw [hr] at h; simp at h
      | some v =>
        rw [hr] at h
        simp at h
        subst h
        simp only [List.drop_succ_cons, List.filter_cons, hf,
          Bool.false_eq_true, if_false]
        exact ih n v hr

theorem nthSetIdx_none (f : GoStr → Bool) (keys : List GoStr) :
    ∀ (n : Nat), nthSetIdx f keys n = none → (keys.filter f).length ≤ n := by
  induction keys with
  | nil => intro n _; simp
  | cons k rest ih =>
    intro n h
    by_cases hf : f k
    · cases n with
      | zero => simp [nthSetIdx, hf] at h
      | succ m =>
        simp only [nthSetIdx, hf, if_true, Nat.succ_ne_zero, if_false,
          Nat.add_sub_cancel, Option.map_eq_none'] at h
        have := ih m h
        simp only [List.filter_cons, hf, if_true, List.length_cons]
        omega
    · simp only [nthSetIdx, hf, Bool.false_eq_true, if_false,
        Option.map_eq_none'] at h
      have := ih n h
      simpa [List.filter_cons, hf] using this

theorem oneOfNthEx_ok (keys : List GoStr) (f : GoStr → Bool) (i : Nat) :
    oneOfNthEx (ε := ε) keys (okInspector f) (i : Int) =
      .ok ((ruleViolations (.oneOf keys) f)[i]?) := by
  rw [oneOfNthEx, if_neg (by omega)]
  rw [show ((i : Int) = (i : Nat)) from rfl]
  rw [oneOfScan_ok f keys 0 false]
  simp only [exceptBind_ok, Bool.false_or, Bool.false_eq_true, if_false]
  by_cases hss : keys.any f
  · simp only [hss, Bool.not_true, Bool.false_eq_true, if_false,
      ruleViolations, if_true]
    cases hn : nthSetIdx f keys 1 with
    | none =>
      have hlen := nthSetIdx_none f keys 1 hn
      have hdrop : (keys.filter f).drop 1 = [] := by
        cases hfk : keys.filter f with
        | nil => simp
        | cons a l =>
          rw [hfk] at hlen
          simp only [List.length_cons] at hlen
          have hl : l = [] := List.eq_nil_of_length_eq_zero (by omega)
          subst hl
          simp
      simp [hdrop]
    | some u =>
      have hu1 : 1 ≤ u := nthSetIdx_le f keys 1 u hn
      simp only [hn, Option.map_some', Option.getD_some, Nat.zero_add]
      rw [if_pos (by simp only [bne_iff_ne]; omega)]
      rw [pickSet_ok, nthSetIdx_drop_filter f keys 1 u hn]
      simp only [exceptBind_ok]
      cases hg : ((keys.filter f).drop 1)[i]? with
      | none =>
        rw [List.getElem?_drop, show 1 + i = i + 1 from by omega] at hg
        simp [hg]
      | some kk =>
        rw [List.getElem?_drop, show 1 + i = i + 1 from by omega] at hg
        simp [hg]
  · simp only [hss, Bool.not_false, if_true, ruleViolations,
      Bool.false_eq_true, if_false]
    by_cases hi : i < keys.length
    · rw [if_pos]
      · simp only [Int.toNat_ofNat, List.getElem?_map]
        rw [List.getD_eq_getElem?_getD, List.getElem?_eq_getElem hi]
        simp
      · simp only [Bool.and_eq_true, decide_eq_true_eq]
        constructor
        · omega
        · omega
    · rw [if_neg]
      · simp only [List.getElem?_map]
        rw [List.getElem?_eq_none (by omega)]
        simp
      · simp only [Bool.and_eq_true, decide_eq_true_eq]
        intro hcon
        omega

theorem anyOfSomeSet_ok (f : GoStr → Bool) (keys : List GoStr) :
    anyOfSomeSet (ε := ε) (okInspector f) keys = .ok (keys.any f) := by
  induction keys with
  | nil => simp [anyOfSomeSet]
  | cons k rest ih =>
    simp only [anyOfSomeSet, okInspector_apply, exceptBind_ok, exceptPure_eq]
    by_cases hf : f k
    · simp [hf, List.any_cons]
    · simp [hf, List.any_cons, ih]

theorem anyOfNthEx_ok (keys : List GoStr) (f : GoStr → Bool) (i : Nat) :
    anyOfNthEx (ε := ε) keys (okInspector f) (i : Int) =
      .ok ((ruleViolations (.anyOf keys) f)[i]?) := by
  rw [anyOfNthEx, if_neg (by omega)]
  rw [show ((i : Int) = (i : Nat)) from rfl]
  rw [anyOfSomeSet_ok]
  simp only [exceptBind_ok]
  by_cases hss : keys.any f
  · simp [hss, ruleViolations]
  · simp only [hss, Bool.not_false, Bool.true_and, ruleViolations,
      Bool.false_eq_true, if_false]
    by_cases hi : i < keys.length
    · rw [if_pos]
      · simp only [Int.toNat_ofNat, List.getElem?_map]
        rw [List.getD_eq_getElem?_getD, List.getElem?_eq_getElem hi]
        simp
      · simp only [Bool.and_eq_true, decide_eq_true_eq]
        constructor
        · omega
        · omega
    · rw [if_neg]
      · simp only [List.getElem?_map]
        rw [List.getElem?_eq_none (by omega)]
        simp
      · simp only [Bool.and_eq_true, decide_eq_true_eq]
        intro hcon
        omega


theorem drainViol_ok (L : List Violation) :
    ∀ (fuel : Nat) (nth : Nat → Except ε (Option Violation)),
      (∀ k : Nat, nth k = .ok L[k]?) → L.length < fuel →
      ∀ (i : Nat), drainViol fuel nth (i : Int) = .ok L[i]? := by
  induction L with
  | nil =>
    intro fuel nth h hf i
    cases fuel with
    | zero => omega
    | succ f => simp [drainViol, h 0]
  | cons v rest ih =>
    intro fuel nth h hf i
    cases fuel with
    | zero => omega
    | succ f =>
      have h0 : nth 0 = .ok (some v) := by
        rw [h 0, List.getElem?_cons_zero]
      simp only [drainViol, h0, exceptBind_ok]
      cases i with
      | zero => simp
      | succ m =>
        rw [if_neg (by simp only [beq_iff_eq]; omega)]
        rw [show ((m + 1 : Nat) : Int) - 1 = ((m : Nat) : Int) from by omega]
        rw [ih f (fun k => nth (k + 1))
          (fun k => by
            show nth (k + 1) = _
            rw [h (k + 1), List.getElem?_cons_succ])
          (by simpa using hf) m]
        rw [List.getElem?_cons_succ]

theorem multiDrain_ok (L : List Violation) :
    ∀ (fuel : Nat) (nth : Nat → Except ε (Option Violation)),
      (∀ k : Nat, nth k = .ok L[k]?) → L.length < fuel →
      ∀ (i : Int), multiDrain fuel nth i =
        .ok (if 0 ≤ i then
              (L[i.toNat]?).elim (Sum.inr (i - L.length)) Sum.inl
            else .inr (i - L.length)) := by
  induction L with
  | nil =>
    intro fuel nth h hf i
    cases fuel with
    | zero => omega
    | succ f =>
      simp only [multiDrain, h 0, exceptBind_ok]
      by_cases hi : 0 ≤ i <;> simp [hi]
  | cons v rest ih =>
    intro fuel nth h hf i
    cases fuel with
    | zero => omega
    | succ f =>
      have h0 : nth 0 = .ok (some v) := by
        rw [h 0, List.getElem?_cons_zero]
      simp only [multiDrain, h0, exceptBind_ok]
      by_cases hz : i = 0
      · subst hz
        simp
      · rw [if_neg (by simp only [beq_iff_eq]; exact hz)]
        rw [ih f (fun k => nth (k + 1))
          (fun k => by
            show nth (k + 1) = _
            rw [h (k + 1), List.getElem?_cons_succ])
          (by simpa using hf) (i - 1)]
        by_cases hi : 0 ≤ i
        · have hi1 : (0 : Int) ≤ i - 1 := by omega
          rw [if_pos hi1, if_pos hi]
          have htn : i.toNat = (i - 1).toNat + 1 := by omega
          rw [htn]
          simp only [List.getElem?_cons_succ]
          cases hg : rest[(i - 1).toNat]? with
          | none =>
            simp only [hg, Option.elim]
            congr 1
            congr 1
            simp only [List.length_cons]
            omega
          | some w => simp [hg]
        · have hi1 : ¬ (0 : Int) ≤ i - 1 := by omega
          rw [if_neg hi1, if_neg hi]
          congr 2
          simp only [List.length_cons]
          omega

theorem ruleViolations_length_le : ∀ (r : RuleM) (f : GoStr → Bool),
    (ruleViolations r f).length ≤ ruleSize r
  | .anyR, f => by simp [ruleViolations, ruleSize]
  | .allOf keys, f => by
    simp only [ruleViolations, ruleSize, List.length_map]
    exact List.length_filter_le _ _
  | .allOrNone keys, f => by
    simp only [ruleViolations, ruleSize]
    split
    · simp only [List.length_map]
      exact List.length_filter_le _ _
    · simp
  | .oneOf keys, f => by
    simp only [ruleViolations, ruleSize]
    split
    · simp only [List.length_map, List.length_drop]
      have := List.length_filter_le f keys
      omega
    · simp
  | .anyOf keys, f => by
    simp only [ruleViolations, ruleSize]
    split
    · simp
    · simp
  | .depends a b c, f => by
    have hb := ruleViolations_length_le b f
    have hc := ruleViolations_length_le c f
    simp only [ruleViolations, ruleSize]
    split
    · exact le_trans hb (le_max_left _ _)
    · exact le_trans hc (le_max_right _ _)
  | .multi rs, f => by
    simp only [ruleViolations, ruleSize, List.length_flatten, List.map_map]
    apply List.sum_le_sum
    intro x hx
    exact ruleViolations_length_le x.1 f
termination_by r _ => sizeOf r
decreasing_by
  all_goals simp_wf
  all_goals try omega
  have := List.sizeOf_lt_of_mem x.2
  omega

theorem ruleViolations_multi (rs : List RuleM) (f : GoStr → Bool) :
    ruleViolations (.multi rs) f = (rs.map (fun r => ruleViolations r f)).flatten := by
  rw [ruleViolations]
  congr 1
  exact List.attach_map_coe rs (fun r => ruleViolations r f)

mutual

theorem ruleNthEx_ok : ∀ (r : RuleM) (f : GoStr → Bool) (i : Nat),
    ruleNthEx (ε := ε) r (okInspector f) (i : Int) = .ok ((ruleViolations r f)[i]?)
  | .anyR, f, i => by simp [ruleNthEx, ruleViolations]
  | .allOf keys, f, i => by
    rw [ruleNthEx]
    exact allOfNthEx_ok keys f i
  | .allOrNone keys, f, i => by
    rw [ruleNthEx]
    exact allOrNoneNthEx_ok keys f i
  | .oneOf keys, f, i => by
    rw [ruleNthEx]
    exact oneOfNthEx_ok keys f i
  | .anyOf keys, f, i => by
    rw [ruleNthEx]
    exact anyOfNthEx_ok keys f i
  | .depends a b c, f, i => by
    rw [ruleNthEx]
    rw [if_neg (by omega)]
    rw [show ((0 : Int) = ((0 : Nat) : Int)) from rfl]
    rw [ruleNthEx_ok a f 0]
    simp only [exceptBind_ok]
    cases hv : (ruleViolations a f)[0]? with
    | some v =>
      have hne : (ruleViolations a f).isEmpty = false := by
        cases hl : ruleViolations a f with
        | nil => rw [hl] at hv; simp at hv
        | cons x xs => simp
      rw [drainViol_ok (ruleViolations c f) (ruleSize c + 1)
        (fun k => ruleNthEx c (okInspector f) (k : Int))
        (fun k => ruleNthEx_ok c f k)
        (by have := ruleViolations_length_le c f; omega) i]
      rw [show ruleViolations (.depends a b c) f = ruleViolations c f from by
        rw [ruleViolations]; simp [hne]]
    | none =>
      have hemp : (ruleViolations a f).isEmpty = true := by
        cases hl : ruleViolations a f with
        | nil => simp
        | cons x xs => rw [hl] at hv; simp at hv
      rw [drainViol_ok (ruleViolations b f) (ruleSize b + 1)
        (fun k => ruleNthEx b (okInspector f) (k : Int))
        (fun k => ruleNthEx_ok b f k)
        (by have := ruleViolations_length_le b f; omega) i]
      rw [show ruleViolations (.depends a b c) f = ruleViolations b f from by
        rw [ruleViolations]; simp [hemp]]
  | .multi rs, f, i => by
    rw [ruleNthEx]
    exact multiNthEx_ok rs f i
termination_by r _ _ => sizeOf r
decreasing_by
  all_goals simp_wf
  all_goals omega

theorem multiNthEx_ok : ∀ (rs : List RuleM) (f : GoStr → Bool) (i : Nat),
    multiNthEx (ε := ε) rs (okInspector f) (i : Int) =
      .ok ((ruleViolations (.multi rs) f)[i]?)
  | [], f, i => by simp [multiNthEx, ruleViolations_multi]
  | r :: rest, f, i => by
    rw [multiNthEx]
    rw [multiDrain_ok (ruleViolations r f) (ruleSize r + 1)
      (fun k => ruleNthEx r (okInspector f) (k : Int))
      (fun k => ruleNthEx_ok r f k)
      (by have := ruleViolations_length_le r f; omega) (i : Int)]
    simp only [exceptBind_ok]
    rw [if_pos (by omega : (0 : Int) ≤ (i : Int))]
    rw [ruleViolations_multi (r :: rest) f]
    simp only [List.map_cons, List.flatten_cons]
    cases hg : (ruleViolations r f)[(i : Int).toNat]? with
    | some v =>
      simp only [hg, Option.elim]
      simp only [Int.toNat_ofNat] at hg
      have hlt : i < (ruleViolations r f).length := by
        by_contra hc
        rw [List.getElem?_eq_none (by omega)] at hg
        exact Option.noConfusion hg
      rw [List.getElem?_append_left hlt, hg]
      rfl
    | none =>
      simp only [hg, Option.elim]
      simp only [Int.toNat_ofNat] at hg
      have hge : (ruleViolations r f).length ≤ i := by
        by_contra hc
        rw [List.getElem?_eq_getElem (by omega)] at hg
        exact Option.noConfusion hg
      rw [show (i : Int) - (ruleViolations r f).length
        = ((i - (ruleViolations r f).length : Nat) : Int) from by omega]
      rw [multiNthEx_ok rest f (i - (ruleViolations r f).length)]
      rw [ruleViolations_multi rest f]
      rw [List.getElem?_append_right (by omega)]
termination_by rs _ _ => sizeOf rs
decreasing_by
  all_goals simp_wf
  all_goals omega

end


/-- **C2.** For every rule built from Any, AllOf, AllOrNone, OneOf,
AnyOf, Depends and Multi, and for every inspector, the sequence
`NthEx(inspector, 0), NthEx(inspector, 1), …` enumerates exactly the
finite violation list of the structural semantics of spec §4.5
(`ruleViolations`): the `i`-th answer of `NthEx` is precisely the
`i`-th element of that list (and a not-found sentinel past its end). -/
theorem claim_C2_rule_enumeration (ε : Type) (r : RuleM) (f : GoStr → Bool)
    (i : Nat) :
    ruleNthEx (ε := ε) r (okInspector f) (i : Int) =
      .ok ((ruleViolations r f)[i]?) :=
  ruleNthEx_ok r f i

/-! ## Flags, indexers, commands and routes (part_000, part_001, cmd.go)

A Go `Flag` is an interface; its observable surface (the methods used
by the parser, the route, the dispatcher and the completion engine) is
modelled as a record of functions over the ambient flag-storage heap
`σ`.  `Decode` returns the possibly-updated heap next to the error. -/

/-- `CompKind` (comp.go). -/
inductive CompKindM where
  | text
  | flagName
  | flagValue
  | files
  | dirs
  deriving Repr, DecidableEq

/-- `CompItem` (comp.go). -/
structure CompItemM where
  value : GoStr := []
  description : GoStr := []
  kind : CompKindM := .text
  deriving Repr, DecidableEq

/-- Completion actions (the `CompAction` implementations of comp.go).
`CompState` masks are `Nat` bit masks exactly as the Go `uint32`
constants.  `CompActionFunc` (an arbitrary function over the task) is
not representable inside `Cmd` without a non-positive occurrence and is
not exercised by any claim; the data-carrying variants are modelled. -/
inductive CompActionM where
  | static (suggestions : List CompItemM) (want state : Nat)
  | disable
  | files
  | dirs

/-- `ParseOptions` (part_006).  `StartTime` is modelled as nanoseconds
since the epoch (`Int`), with `0` playing the role of the zero
`time.Time` (`IsZero`).  `HandleParseError` in Go also receives
`opts *ParseOptions` itself; that self-referential parameter cannot
appear in the structure's own type and is dropped (all claims exercise
it as `nil` or as handlers that ignore it). -/
structure ParseOptionsM where
  startTime : Int := 0
  handleParseError : Option (List GoStr → Int → GoErr → Option GoErr) := none
  posArgsBuf : List GoStr := []
  helpArgs : Option (List GoStr) := none
  deriving Inhabited

/-- `ParseOptions.IsHelpArg` (part_006 lines 43-58); in Go a nil
receiver also takes the default-help branch, hence the outer
`Option`. -/
def isHelpArg (c : Option ParseOptionsM) (x : GoStr) : Bool :=
  match c with
  | none => x == gs "--help" || x == gs "-h" || x == gs "help"
  | some o =>
    match o.helpArgs with
    | none => x == gs "--help" || x == gs "-h" || x == gs "help"
    | some cmds => cmds.any (fun cmd => cmd == x)

/-- The `Flag` interface surface (`Type`, `ImplyValue`, `Extra`,
`HasValue`, `State`, `Default`, `Usage`, `PrintValue`, `Decode` — the
set implemented e.g. by `FlagReflect` in flag_reflect.go).  The
concrete generic implementations live in the missing `flagt.go`;
claims about specific flags instantiate this record.  `selfComp` and
`extraComp` model the downcasts `flag.(CompAction)` and
`flag.Extra().(CompAction)` done by `CompTask.AddFlagValues`; `none`
means the cast fails. -/
structure FlagM (σ : Type) where
  decode : Option ParseOptionsM → GoStr → GoStr → Bool → σ → Option GoValErr × σ
  implyValue : Option GoStr := none
  state : σ → FlagStateM := fun _ => {}
  usage : GoStr := []
  hasValue : σ → Bool := fun _ => false
  printValue : σ → Option GoStr := fun _ => none
  selfComp : Option CompActionM := none
  extraComp : Option CompActionM := none

/-- A `FlagFinder` that may additionally support `FlagIter`
(part_001): `find` is `FindFlag`; `nthList` is `some l` when the value
also implements `FlagIter`, in which case `NthFlag i` answers `l[i]?`
(all built-in iterable indexers enumerate a finite, prefix-closed
sequence, which the `FlagIter` contract requires). -/
structure FlagIndexerM (σ : Type) where
  find : GoStr → Option (FlagM σ)
  nthList : Option (List FlagInfoM) := none

/-- `NthFlag` of an indexer (`none` when `FlagIter` is unsupported). -/
def indexerNth (fi : FlagIndexerM σ) (i : Nat) : Option FlagInfoM :=
  match fi.nthList with
  | none => none
  | some l => l[i]?

/-- `Cmd` (cmd.go).  The hook fields (`PreRun`, `Run`, `PostRun`,
`Help`) take the `Route` — a list of `Cmd` — as an argument and would
be non-positive occurrences; no claim below exercises them, so they
are omitted from the model. -/
inductive CmdM (σ : Type) where
  | mk (pattern : GoStr) (briefUsage : GoStr)
      (flags : Option (FlagIndexerM σ)) (localFlags : Option (FlagIndexerM σ))
      (flagRule : Option RuleM)
      (completion : Option CompActionM)
      (children : List (CmdM σ))
      (state : Nat)

namespace CmdM

def pattern : CmdM σ → GoStr
  | .mk p _ _ _ _ _ _ _ => p

def briefUsage : CmdM σ → GoStr
  | .mk _ b _ _ _ _ _ _ => b

def flags : CmdM σ → Option (FlagIndexerM σ)
  | .mk _ _ f _ _ _ _ _ => f

def localFlags : CmdM σ → Option (FlagIndexerM σ)
  | .mk _ _ _ lf _ _ _ _ => lf

def flagRule : CmdM σ → Option RuleM
  | .mk _ _ _ _ r _ _ _ => r

def completion : CmdM σ → Option CompActionM
  | .mk _ _ _ _ _ c _ _ => c

def children : CmdM σ → List (CmdM σ)
  | .mk _ _ _ _ _ _ cs _ => cs

def state : CmdM σ → Nat
  | .mk _ _ _ _ _ _ _ s => s

/-- `CmdStateHidden` (cmd.go). -/
def stateHidden (s : Nat) : Bool := s.land 1 != 0

/-- `Cmd.Name` (cmd.go): first pipe-separated token before the first
space of the pattern. -/
def name (c : CmdM σ) : GoStr :=
  (goCut (goCut c.pattern (gs " ")).1 (gs "|")).1

/-- The name loop of `Cmd.Is` (cmd.go lines 264-275). -/
def isNameLoop (s : GoStr) (names : GoStr) : Bool :=
  if hn : names = [] then false
  else
    let r := goCut names (gs "|")
    if s == r.1 then true else isNameLoop s r.2.1
termination_by names.length
decreasing_by
  simp_wf
  exact goCut_after_length names (gs "|") (by simp [gs]) hn

/-- `Cmd.Is` (cmd.go): `s` is one of the pipe-separated names. -/
def isName (c : CmdM σ) (s : GoStr) : Bool :=
  isNameLoop s (goCut c.pattern (gs " ")).1

end CmdM


/-! ### Route (part_000) -/

/-- `Route`: the path from the root `Cmd` to the target. -/
abbrev RouteM (σ : Type) := List (CmdM σ)

/-- `Route.Root` (part_000). -/
def routeRoot (p : RouteM σ) : Option (CmdM σ) := p.head?

/-- `Route.Target` (part_000): the last `Cmd`, `nil` when empty. -/
def routeTarget (p : RouteM σ) : Option (CmdM σ) := p.getLast?

/-- The `for i := len(route)-1; i >= 0; i--` loop of `Route.FindFlag`,
expressed over the reversed route. -/
def routeFindFlagLoop (rev : List (CmdM σ)) (name : GoStr) : Option (FlagM σ) :=
  match rev with
  | [] => none
  | c :: rest =>
    match c.flags with
    | some flags =>
      match flags.find name with
      | some f => some f
      | none => routeFindFlagLoop rest name
    | none => routeFindFlagLoop rest name

/-- `Route.FindFlag` (part_000 lines 61-82): target-local flags first,
then each route member's `Flags` from the target back to the root.
The Go code dereferences `p.Target()` unconditionally, so an empty
route panics; the claims only exercise non-empty routes and the panic
is modelled as the `none` target falling through to a miss. -/
def routeFindFlag (p : RouteM σ) (name : GoStr) : Option (FlagM σ) :=
  match routeTarget p with
  | none => none
  | some target =>
    match target.localFlags with
    | some flags =>
      match flags.find name with
      | some f => some f
      | none => routeFindFlagLoop p.reverse name
    | none => routeFindFlagLoop p.reverse name

/-- The member loop of `Route.NthFlag` over the reversed route. -/
def routeNthFlagLoop (rev : List (CmdM σ)) (i : Nat) : Option FlagInfoM :=
  match rev with
  | [] => none
  | c :: rest =>
    match c.flags with
    | none => routeNthFlagLoop rest i
    | some flags =>
      match flags.nthList with
      | none => routeNthFlagLoop rest i
      | some _ =>
        match indexerNth flags i with
        | some info => some info
        | none =>
          routeNthFlagLoop rest
            (i - goSortSearch i (fun j => !(indexerNth flags j).isSome))

/-- `Route.NthFlag` (part_000 lines 85-133): iterate target-local
flags first, then each member's `Flags` from target to root, shifting
the index down by each iterator's length (discovered by the
`sort.Search` probe). -/
def routeNthFlag (p : RouteM σ) (i : Nat) : Option FlagInfoM :=
  match routeTarget p with
  | none => none
  | some target =>
    match target.localFlags with
    | some flags =>
      match flags.nthList with
      | some _ =>
        match indexerNth flags i with
        | some info => some info
        | none =>
          routeNthFlagLoop p.reverse
            (i - goSortSearch i (fun j => !(indexerNth flags j).isSome))
      | none => routeNthFlagLoop p.reverse i
    | none => routeNthFlagLoop p.reverse i

/-- `Route.CheckFlagValueChanged` (part_000 lines 51-58), the
`Inspector` used by `Cmd.Exec` for rule evaluation: panics (modelled
as the error case) with `ErrFlagUndefined{Name: name}` when the flag
cannot be resolved. -/
def routeCheckFlagValueChanged (p : RouteM σ) (st : σ) (name : GoStr) :
    Except GoErr Bool :=
  match routeFindFlag p name with
  | none => .error (.flagUndefined name 0)
  | some f => .ok (f.state st).valueChanged

/-- The generic `FindFlag` helper (part_001 lines 55-69): try a list
of names, skipping empty ones; returns the name that hit. -/
def findFlagNames (flags : FlagIndexerM σ) : List GoStr →
    Option (GoStr × FlagM σ)
  | [] => none
  | n :: rest =>
    if n.length == 0 then findFlagNames flags rest
    else
      match flags.find n with
      | some f => some (n, f)
      | none => findFlagNames flags rest


/-! ### C3: route flag lookup order -/

/-- The ordered finder sequence the spec prescribes for
`Route.FindFlag`: the target's local finder first, then the `Flags`
finder of `route[k-1]`, …, `route[0]` (members that carry no finder
occupy their slot as `none`). -/
def finderSeq (p : RouteM σ) : List (Option (FlagIndexerM σ)) :=
  match routeTarget p with
  | none => []
  | some t => t.localFlags :: p.reverse.map (fun c => c.flags)

/-- First hit over an ordered sequence of optional finders: consult
each in order, return the first finder's hit, miss only if all miss. -/
def firstHit : List (Option (FlagIndexerM σ)) → GoStr → Option (FlagM σ)
  | [], _ => none
  | none :: rest, n => firstHit rest n
  | some fi :: rest, n =>
    match fi.find n with
    | some f => some f
    | none => firstHit rest n

theorem routeFindFlagLoop_eq_firstHit (rev : List (CmdM σ)) (name : GoStr) :
    routeFindFlagLoop rev name = firstHit (rev.map (fun c => c.flags)) name := by
  induction rev with
  | nil => rfl
  | cons c rest ih =>
    cases hc : c.flags with
    | none => simp [routeFindFlagLoop, firstHit, hc, ih]
    | some flags =>
      cases hf : flags.find name with
      | none => simp [routeFindFlagLoop, firstHit, hc, hf, ih]
      | some f => simp [routeFindFlagLoop, firstHit, hc, hf]

/-- **C3.** For every route of length `k ≥ 1` and every name,
`Route.FindFlag` equals the first hit over the ordered finder sequence
(target-local finder, then the `Flags` of `route[k-1]` down to
`route[0]`), and that sequence has exactly `k + 1` entries — so at
most `k + 1` finders are consulted, in that fixed order, and not-found
is reported only when all of them miss. -/
theorem claim_C3_route_findFlag (σ : Type) (p : RouteM σ) (hp : p ≠ [])
    (name : GoStr) :
    routeFindFlag p name = firstHit (finderSeq p) name ∧
      (finderSeq p).length = p.length + 1 := by
  obtain ⟨t, ht⟩ : ∃ t, routeTarget p = some t := by
    cases h : routeTarget p with
    | none =>
      exact absurd (List.getLast?_eq_none_iff.mp h) hp
    | some t => exact ⟨t, rfl⟩
  constructor
  · cases hl : t.localFlags with
    | none =>
      simp [routeFindFlag, ht, finderSeq, firstHit, hl,
        routeFindFlagLoop_eq_firstHit]
    | some flags =>
      cases hf : flags.find name with
      | none =>
        simp [routeFindFlag, ht, finderSeq, firstHit, hl, hf,
          routeFindFlagLoop_eq_firstHit]
      | some f =>
        simp [routeFindFlag, ht, finderSeq, firstHit, hl, hf]
  · simp [finderSeq, ht]

/-- Witness for C3 at a concrete input: the one-command route. -/
theorem claim_C3_route_findFlag_witness :
    (routeFindFlag ([CmdM.mk [] [] none none none none [] 0] : RouteM Unit)
        (gs "x") =
      firstHit (finderSeq [CmdM.mk [] [] none none none none [] 0]) (gs "x")) ∧
      (finderSeq ([CmdM.mk [] [] none none none none [] 0] : RouteM Unit)).length
        = [CmdM.mk (σ := Unit) [] [] none none none none [] 0].length + 1 :=
  claim_C3_route_findFlag Unit [CmdM.mk [] [] none none none none [] 0]
    (by simp) (gs "x")

/-! ### C10: the rule inspector panics on unresolvable keys -/

/-- **C10 (amended).** `Route.CheckFlagValueChanged` — the inspector
`Cmd.Exec` passes to `Rule.NthEx` (cmd.go line 466) — panics with
`ErrFlagUndefined{Name: name}` on every name that `Route.FindFlag`
cannot resolve, rather than returning it as an error value. -/
theorem claim_C10_inspector_panics (σ : Type) (p : RouteM σ) (st : σ)
    (name : GoStr) (h : routeFindFlag p name = none) :
    routeCheckFlagValueChanged p st name = .error (.flagUndefined name 0) := by
  rw [routeCheckFlagValueChanged, h]

/-- The route used in the C10 counterexample and witness: one command
whose finder resolves only the flag `a`, whose value has changed. -/
def c10route : RouteM Unit :=
  [CmdM.mk [] []
    (some { find := fun n =>
      if n == gs "a" then
        some { decode := fun _ _ _ _ s => (none, s)
               state := fun _ => { valueChanged := true } }
      else none })
    none none none [] 0]

/-- Witness for the amended C10: the unresolvable name `x` on the
concrete route makes the inspector panic. -/
theorem claim_C10_inspector_panics_witness :
    routeCheckFlagValueChanged c10route () (gs "x") =
      .error (.flagUndefined (gs "x") 0) :=
  claim_C10_inspector_panics Unit c10route () (gs "x") rfl

/-- **C10 counterexample.** The claim as stated — a rule on the route
that merely *mentions* an unresolvable key makes rule evaluation panic
— is false: `AnyOf("a", "x")` mentions the unresolvable `x`
(`Contains` is true and `FindFlag` misses), yet `NthEx` with the
route's panicking inspector completes normally with no violation,
because the scan short-circuits at the changed key `a` before ever
inspecting `x`. -/
theorem claim_C10_counterexample :
    ruleContains (.anyOf [gs "a", gs "x"]) (gs "x") = true ∧
    (routeFindFlag c10route (gs "x")).isNone = true ∧
    ruleNthEx (.anyOf [gs "a", gs "x"])
      (routeCheckFlagValueChanged c10route ()) 0 = .ok none := by
  refine ⟨?_, rfl, ?_⟩
  · rw [ruleContains]
    decide
  · rw [ruleNthEx]
    rfl


/-! ## The argument parser (part_006)

The parser threads the flag-storage heap `σ` through every
`Flag.Decode` call and can panic (`parseLongFlag`'s defensive check),
so every entry point returns `PanicOr`.  The flag finder is the
function `GoStr → Option (FlagM σ)` (`FindFlag`). -/

/-- The `TryImplied` tail of `parseLongFlag` (part_006 lines 302-329).
`verr` is the value-validation error of the failed look-ahead decode
(`nil` when the tail is reached through the `goto`). -/
def longTryImplied (opts : Option ParseOptionsM) (args : List GoStr) (i : Nat)
    (name : GoStr) (f : FlagM σ) (set : Bool) (verr : Option GoValErr)
    (st : σ) : Bool × Option GoErr × σ :=
  match f.implyValue with
  | some v =>
    match f.decode opts name v set st with
    | (some e, st') =>
      (false, some (.flagValueInvalid name v i (-1) (some e)), st')
    | (none, st') => (false, none, st')
  | none =>
    if i == args.length - 1 || args.getD (i + 1) [] == gs "--" then
      (false, some (.flagValueMissing name i), st)
    else
      (false, some (.flagValueInvalid name (args.getD (i + 1) []) i (i + 1) verr), st)

/-- `parseLongFlag` (part_006 lines 236-330).  Note the Go function
panics on an empty flag name (`--=value`), a reachable defensive
check. -/
def parseLongFlag (flags : GoStr → Option (FlagM σ)) (opts : Option ParseOptionsM)
    (args : List GoStr) (i : Nat) (set : Bool) (st : σ) :
    PanicOr (Bool × Option GoErr × σ) :=
  let arg := args.getD i []
  let cut := goCut (arg.drop 2) (gs "=")
  let name := cut.1
  let value0 := cut.2.1
  let hasValue := cut.2.2
  if name.length == 0 then .error (.msg "unexpected empty arg name")
  else
    match flags name with
    | none => .ok (false, some (.flagUndefined name i), st)
    | some f =>
      if hasValue then
        match f.decode opts name value0 set st with
        | (some _, st') =>
          .ok (false, some (.flagValueInvalid name value0 i i none), st')
        | (none, st') => .ok (false, none, st')
      else if i == args.length - 1 || args.getD (i + 1) [] == gs "--" then
        .ok (longTryImplied opts args i name f set none st)
      else
        let value := args.getD (i + 1) []
        match f.decode opts name value false st with
        | (none, st1) =>
          if goHasPrefix value (gs "-") && f.implyValue.isSome then
            .ok (true, some (.ambiguousArgs name value i), st1)
          else if set then
            match f.decode opts name value true st1 with
            | (some e, st2) => .ok (true, some (.valErr e), st2)
            | (none, st2) => .ok (true, none, st2)
          else .ok (true, none, st1)
        | (some verr, st1) =>
          .ok (longTryImplied opts args i name f set (some verr) st1)

/-- The `TryImplied` tail of `parseShortFlags` (part_006 lines
417-444); unlike the long-flag tail, the final invalid error carries
no `Reason`. -/
def shortTryImplied (opts : Option ParseOptionsM) (args : List GoStr) (i : Nat)
    (name : GoStr) (f : FlagM σ) (set : Bool) (st : σ) :
    Bool × Option GoErr × σ :=
  match f.implyValue with
  | some v =>
    match f.decode opts name v set st with
    | (some e, st') =>
      (false, some (.flagValueInvalid name v i (-1) (some e)), st')
    | (none, st') => (false, none, st')
  | none =>
    if i == args.length - 1 || args.getD (i + 1) [] == gs "--" then
      (false, some (.flagValueMissing name i), st)
    else
      (false, some (.flagValueInvalid name (args.getD (i + 1) []) i (i + 1) none), st)

/-- The rune-cluster loop of `parseShortFlags` (part_006 lines
352-484): `rem` is the not-yet-consumed suffix of the cluster `s`. -/
def parseShortLoop (flags : GoStr → Option (FlagM σ)) (opts : Option ParseOptionsM)
    (args : List GoStr) (i : Nat) (set : Bool)
    (s value0 : GoStr) (hasValue : Bool) :
    List Char → σ → PanicOr (Bool × Option GoErr × σ)
  | [], st => .ok (false, none, st)
  | ch :: rem, st =>
    let name : GoStr := [ch]
    match flags name with
    | none => .ok (false, some (.flagUndefined name i), st)
    | some f =>
      if rem.isEmpty then
        if hasValue then
          match f.decode opts name value0 set st with
          | (some e, st') =>
            .ok (false, some (.flagValueInvalid name value0 i i (some e)), st')
          | (none, st') => .ok (false, none, st')
        else if i == args.length - 1 || args.getD (i + 1) [] == gs "--" then
          .ok (shortTryImplied opts args i name f set st)
        else
          let value := args.getD (i + 1) []
          match f.decode opts name value false st with
          | (none, st1) =>
            if goHasPrefix value (gs "-") && f.implyValue.isSome then
              .ok (true, some (.ambiguousArgs name value i), st1)
            else if set then
              match f.decode opts name value true st1 with
              | (some _, st2) =>
                .ok (true, some (.flagValueInvalid name value i (i + 1) none), st2)
              | (none, st2) => .ok (true, none, st2)
            else .ok (true, none, st1)
          | (some _, st1) => .ok (shortTryImplied opts args i name f set st1)
      else
        match f.implyValue with
        | some impliedValue =>
          match f.decode opts name impliedValue set st with
          | (some e, st') => .ok (false, some (.valErr e), st')
          | (none, st') =>
            parseShortLoop flags opts args i set s value0 hasValue rem st'
        | none =>
          if hasValue then
            .ok (false, some (.shorthandOfExplicitFlagInMiddle name s value0), st)
          else
            match f.decode opts name rem set st with
            | (some e, st') =>
              .ok (false, some (.flagValueInvalid [] rem i i (some e)), st')
            | (none, st') => .ok (false, none, st')

/-- `parseShortFlags` (part_006 lines 332-487). -/
def parseShortFlags (flags : GoStr → Option (FlagM σ)) (opts : Option ParseOptionsM)
    (args : List GoStr) (i : Nat) (set : Bool) (st : σ) :
    PanicOr (Bool × Option GoErr × σ) :=
  let cut := goCut ((args.getD i []).drop 1) (gs "=")
  parseShortLoop flags opts args i set cut.1 cut.2.1 cut.2.2 cut.1 st

/-- Result pack of `ParseFlagsLowLevel`. -/
structure ParseLLRes (σ : Type) where
  nParsed : Int
  posDash : Int
  foundPosArg : Bool
  posArgs : List GoStr
  helpArgAt : Int
  err : Option GoErr
  st : σ

/-- The token loop of `ParseFlagsLowLevel` (part_006 lines 141-229).
The Go `for` loop advances `i` by 1 or 2 every iteration and stops at
`len(args)`; `fuel` is an upper bound on the remaining iterations (the
callers pass `args.length + 1`, which the advancing index can never
exhaust), making the function structurally recursive. -/
def pfllLoop (args : List GoStr) (flags : GoStr → Option (FlagM σ))
    (opts : Option ParseOptionsM) (offset : Nat)
    (appendPosArgs stopAtFirstPosArg setFlagValue : Bool) :
    Nat → Nat → Bool → List GoStr → σ → PanicOr (ParseLLRes σ)
  | 0, i, foundPos, posArgs, st =>
    .ok ⟨(i : Int) - (offset : Int), -1, foundPos, posArgs, -1, none, st⟩
  | fuel + 1, i, foundPos, posArgs, st =>
    if i < args.length then
      let arg := args.getD i []
      if arg.length == 0 || arg.getD 0 ' ' != '-' || arg.length == 1 then
        let posArgs' := if appendPosArgs then posArgs ++ [arg] else posArgs
        let isHelp := isHelpArg opts arg
        if isHelp || stopAtFirstPosArg then
          .ok ⟨(i : Int) - (offset : Int), -1, true, posArgs',
            if isHelp then (i : Int) else -1, none, st⟩
        else
          pfllLoop args flags opts offset appendPosArgs stopAtFirstPosArg
            setFlagValue fuel (i + 1) true posArgs' st
      else if arg.getD 1 ' ' == '-' then
        if arg.length == 2 then
          .ok ⟨(args.length : Int), (i : Int), foundPos, posArgs, -1, none, st⟩
        else if isHelpArg opts arg then
          match (if (flags (arg.drop 2)).isSome then
                   parseLongFlag flags opts args i setFlagValue st
                 else .ok (false, none, st)) with
          | .error p => .error p
          | .ok (_, errOpt, st') =>
            .ok ⟨(i : Int) + 1 - (offset : Int), -1, foundPos, posArgs,
              (i : Int), errOpt, st'⟩
        else
          match parseLongFlag flags opts args i setFlagValue st with
          | .error p => .error p
          | .ok (shiftNext, errOpt, st') =>
            match errOpt with
            | some e =>
              match (match opts with
                     | none => none
                     | some o => o.handleParseError) with
              | none =>
                .ok ⟨(i : Int) + 1 - (offset : Int), -1, foundPos, posArgs,
                  -1, some e, st'⟩
              | some handler =>
                match handler args (i : Int) e with
                | some e2 =>
                  .ok ⟨(i : Int) + 1 - (offset : Int), -1, foundPos, posArgs,
                    -1, some e2, st'⟩
                | none =>
                  pfllLoop args flags opts offset appendPosArgs
                    stopAtFirstPosArg setFlagValue fuel
                    (if shiftNext then i + 2 else i + 1) foundPos posArgs st'
            | none =>
              pfllLoop args flags opts offset appendPosArgs
                stopAtFirstPosArg setFlagValue fuel
                (if shiftNext then i + 2 else i + 1) foundPos posArgs st'
      else if isHelpArg opts arg then
        match (if (flags (arg.drop 1)).isSome then
                 parseShortFlags flags opts args i setFlagValue st
               else .ok (false, none, st)) with
        | .error p => .error p
        | .ok (_, errOpt, st') =>
          .ok ⟨(i : Int) + 1 - (offset : Int), -1, foundPos, posArgs,
            (i : Int), errOpt, st'⟩
      else
        match parseShortFlags flags opts args i setFlagValue st with
        | .error p => .error p
        | .ok (shiftNext, errOpt, st') =>
          match errOpt with
          | some e =>
            match (match opts with
                   | none => none
                   | some o => o.handleParseError) with
            | none =>
              .ok ⟨(i : Int) + 1 - (offset : Int), -1, foundPos, posArgs,
                -1, some e, st'⟩
            | some handler =>
              match handler args (i : Int) e with
              | some e2 =>
                .ok ⟨(i : Int) + 1 - (offset : Int), -1, foundPos, posArgs,
                  -1, some e2, st'⟩
              | none =>
                pfllLoop args flags opts offset appendPosArgs
                  stopAtFirstPosArg setFlagValue fuel
                  (if shiftNext then i + 2 else i + 1) foundPos posArgs st'
          | none =>
            pfllLoop args flags opts offset appendPosArgs
              stopAtFirstPosArg setFlagValue fuel
              (if shiftNext then i + 2 else i + 1) foundPos posArgs st'
    else
      .ok ⟨(i : Int) - (offset : Int), -1, foundPos, posArgs, -1, none, st⟩

/-- `ParseFlagsLowLevel` (part_006 lines 119-234). -/
def parseFlagsLowLevel (args : List GoStr) (flags : GoStr → Option (FlagM σ))
    (opts : Option ParseOptionsM) (offset : Nat)
    (appendPosArgs stopAtFirstPosArg setFlagValue : Bool)
    (posArgsBuf : List GoStr) (st : σ) : PanicOr (ParseLLRes σ) :=
  pfllLoop args flags opts offset appendPosArgs stopAtFirstPosArg setFlagValue
    (args.length + 1) offset false posArgsBuf st

/-- `ParseFlags` (part_006 lines 76-95): positional args, dash args
and the error. -/
def parseFlags (args : List GoStr) (flags : GoStr → Option (FlagM σ))
    (opts : Option ParseOptionsM) (st : σ) :
    PanicOr (List GoStr × List GoStr × Option GoErr × σ) :=
  let posArgsBuf := match opts with
    | some o => o.posArgsBuf
    | none => []
  match parseFlagsLowLevel args flags opts 0 true false true posArgsBuf st with
  | .error p => .error p
  | .ok r =>
    let dashArgs := if r.posDash >= 0 then args.drop (r.posDash.toNat + 1) else []
    .ok (r.posArgs, dashArgs, r.err, r.st)


/-! ## strconv model and the IntSum flag (C1, C4) -/

/-- Modelled from the Go standard library (`strconv`): the numeric
value of a digit rune (`99` marks a non-digit). -/
def digitVal (c : Char) : Nat :=
  if '0' ≤ c && c ≤ '9' then c.toNat - '0'.toNat
  else if 'a' ≤ c && c ≤ 'f' then c.toNat - 'a'.toNat + 10
  else if 'A' ≤ c && c ≤ 'F' then c.toNat - 'A'.toNat + 10
  else 99

/-- Digits of a fixed base accumulated left to right; `none` on an
empty digit string or an out-of-base rune. -/
def parseDigits (base : Nat) (l : List Char) : Option Nat :=
  match l with
  | [] => none
  | _ =>
    l.foldl
      (fun acc c =>
        acc.bind (fun a =>
          if digitVal c < base then some (a * base + digitVal c) else none))
      (some 0)

/-- Modelled from the Go standard library: `strconv.ParseUint(s, 0, _)`
base detection (hex `0x`, octal `0o`/legacy `0`, binary `0b`, else
decimal; underscore separators are not modelled). -/
def goParseUintBase0 (s : GoStr) : Option Nat :=
  match s with
  | [] => none
  | ['0'] => some 0
  | '0' :: 'x' :: rest => parseDigits 16 rest
  | '0' :: 'X' :: rest => parseDigits 16 rest
  | '0' :: 'o' :: rest => parseDigits 8 rest
  | '0' :: 'O' :: rest => parseDigits 8 rest
  | '0' :: 'b' :: rest => parseDigits 2 rest
  | '0' :: 'B' :: rest => parseDigits 2 rest
  | '0' :: rest => parseDigits 8 rest
  | _ => parseDigits 10 s

/-- Modelled from the Go standard library: `strconv.ParseUint(s, 0,
bitSize)` with its range check. -/
def goParseUint (s : GoStr) (bitSize : Nat) : Except GoValErr Nat :=
  match goParseUintBase0 s with
  | none => .error .errSyntax
  | some un => if un < 2 ^ bitSize then .ok un else .error .errRange

/-- Modelled from the Go standard library: `strconv.ParseInt(s, 0,
bitSize)`: optional sign, then `ParseUint` with the signed cutoff. -/
def goParseInt (s : GoStr) (bitSize : Nat) : Except GoValErr Int :=
  match s with
  | [] => .error .errSyntax
  | c :: rest =>
    let p := if c == '+' then (false, rest)
      else if c == '-' then (true, rest)
      else (false, s)
    match goParseUintBase0 p.2 with
    | none => .error .errSyntax
    | some un =>
      if p.1 then
        if un ≤ 2 ^ (bitSize - 1) then .ok (-(un : Int)) else .error .errRange
      else
        if un < 2 ^ (bitSize - 1) then .ok (un : Int) else .error .errRange

/-- `VPInt.ParseValue` (part_007 lines 76-88): `strconv.ParseInt` in
base 0 at the storage cell's bit width; the cell is written only when
`set`. -/
def vpIntParseValue (bitSize : Nat) (opts : Option ParseOptionsM) (arg : GoStr)
    (cell : Int) (set : Bool) : Option GoValErr × Int :=
  match goParseInt arg bitSize with
  | .error e => (some e, cell)
  | .ok x => (none, if set then x else cell)

/-- `VPSum.ParseValue` (part_007 lines 290-306): parse into a
zero-initialized temporary with the inner parser (passing `set`
through), then, only when `set`, add it onto the cell. -/
def vpSumParseValue (inner : Option ParseOptionsM → GoStr → α → Bool → Option GoValErr × α)
    (zero : α) (add : α → α → α) (opts : Option ParseOptionsM) (arg : GoStr)
    (cell : α) (set : Bool) : Option GoValErr × α :=
  let r := inner opts arg zero set
  match r.1 with
  | some e => (some e, cell)
  | none => (none, if set then add cell r.2 else cell)

/-- Modelled from the spec: the `IntSum` flag of spec §8 scenarios 1
and 3 (the concrete generic flag types of the repository's `flagt.go`
are not under src/): a signed-int-sum flag over an `int64` cell with
implied value `"1"`, whose `Decode` is `VPSum` over `VPInt` (both from
part_007). -/
def intSumFlag : FlagM Int :=
  { decode := fun opts _name v set st =>
      vpSumParseValue (vpIntParseValue 64) 0 (· + ·) opts v st set
    implyValue := some (gs "1") }

/-- A finder exposing `intSumFlag` under the long name `IntSum`. -/
def intSumFinder : GoStr → Option (FlagM Int) :=
  fun n => if n == gs "IntSum" then some intSumFlag else none

/-- **C1.** The claim says the parser never panics; the code panics.
Evaluating both `ParseFlagsLowLevel` and `ParseFlags` on the malformed
token `--=value` (empty long-flag name with an explicit value) reaches
`parseLongFlag`'s "defensive check, should never happen" branch and
panics with "unexpected empty arg name". -/
theorem claim_C1_parser_panics_on_empty_long_name :
    parseFlagsLowLevel [gs "--=value"] (fun _ => none : GoStr → Option (FlagM Unit))
        none 0 true false true [] () =
      .error (.msg "unexpected empty arg name") ∧
    parseFlags [gs "--=value"] (fun _ => none : GoStr → Option (FlagM Unit))
        none () =
      .error (.msg "unexpected empty arg name") := by
  constructor
  · rfl
  · rfl

/-- **C4.** The ambiguity rule of `parseLongFlag`: when a long flag
without `=` is followed by a token that validates as a value
(set=false decode succeeds), starts with `-`, and the flag has an
implied value, the parser reports `ErrAmbiguousArgs{name, value}`;
with the `=` form the value is decoded directly.  Concretely, for the
signed-int-sum flag `--IntSum`: `["--IntSum","-1"]` yields the
ambiguous-args error `{Name:"IntSum", Value:"-1"}` and
`["--IntSum=-1"]` stores `-1`. -/
theorem claim_C4_ambiguous_args :
    (∀ (σ : Type) (flags : GoStr → Option (FlagM σ)) (opts : Option ParseOptionsM)
      (args : List GoStr) (i : Nat) (set : Bool) (st : σ)
      (name v : GoStr) (f : FlagM σ),
      goCut ((args.getD i []).drop 2) (gs "=") = (name, [], false) →
      name ≠ [] →
      flags name = some f →
      (i == args.length - 1 || args.getD (i + 1) [] == gs "--") = false →
      args.getD (i + 1) [] = v →
      (f.decode opts name v false st).1 = none →
      goHasPrefix v (gs "-") = true →
      f.implyValue.isSome = true →
      parseLongFlag flags opts args i set st =
        .ok (true, some (.ambiguousArgs name v i),
          (f.decode opts name v false st).2)) ∧
    (∀ (σ : Type) (flags : GoStr → Option (FlagM σ)) (opts : Option ParseOptionsM)
      (args : List GoStr) (i : Nat) (set : Bool) (st : σ)
      (name value : GoStr) (f : FlagM σ) (st' : σ),
      goCut ((args.getD i []).drop 2) (gs "=") = (name, value, true) →
      name ≠ [] →
      flags name = some f →
      f.decode opts name value set st = (none, st') →
      parseLongFlag flags opts args i set st = .ok (false, none, st')) ∧
    parseFlags [gs "--IntSum", gs "-1"] intSumFinder none (0 : Int) =
      .ok ([], [], some (.ambiguousArgs (gs "IntSum") (gs "-1") 0), 0) ∧
    parseFlags [gs "--IntSum=-1"] intSumFinder none (0 : Int) =
      .ok ([], [], none, -1) := by
  refine ⟨?_, ?_, by rfl, by rfl⟩
  · intro σ flags opts args i set st name v f hcut hname hfind hnotLast hv
      hval hpre himp
    rw [hv] at hnotLast
    have hname' : (name.length == 0) = false := by
      cases name with
      | nil => exact absurd rfl hname
      | cons a l => rfl
    cases hd : f.decode opts name v false st with
    | mk e st1 =>
      rw [hd] at hval
      simp only at hval
      subst hval
      rw [parseLongFlag]
      simp only [hcut, hname', hfind, hv, hnotLast, hd, hpre, himp,
        Bool.false_eq_true, if_false, Bool.and_self, if_true]
  · intro σ flags opts args i set st name value f st' hcut hname hfind hdec
    have hname' : (name.length == 0) = false := by
      cases name with
      | nil => exact absurd rfl hname
      | cons a l => rfl
    rw [parseLongFlag]
    simp only [hcut, hname', hfind, hdec, Bool.false_eq_true, if_false, if_true]

/-- Witness for C4: the general ambiguity rule applied at the concrete
`IntSum` input. -/
theorem claim_C4_ambiguous_args_witness :
    parseLongFlag intSumFinder none [gs "--IntSum", gs "-1"] 0 true (0 : Int) =
      .ok (true, some (.ambiguousArgs (gs "IntSum") (gs "-1") 0),
        (intSumFlag.decode none (gs "IntSum") (gs "-1") false 0).2) :=
  claim_C4_ambiguous_args.1 Int intSumFinder none [gs "--IntSum", gs "-1"] 0
    true 0 (gs "IntSum") (gs "-1") intSumFlag (by decide)
    (by simp [gs]) rfl (by decide) rfl (by decide) (by decide) (by decide)


/-! ## Unix-epoch value peekers (part_007) — C5

`time.Time` is modelled as nanoseconds since the epoch (`Int`); the
zero `time.Time` is `0` and `time.Now()` is the parameter `now`.  The
calendar work of `parseTime` (part_008, built on
`time.ParseInLocation`) is abstracted as the parameter `parseTimeF`. -/

/-- Base-time resolution of `VPUnixSec.ParseValue` (part_007 lines
471-476): `if opts == nil || opts.StartTime.IsZero() { t = time.Now() }
else { t = opts.StartTime }`. -/
def vpUnixSecBaseTime (opts : Option ParseOptionsM) (now : Int) : PanicOr Int :=
  match opts with
  | none => .ok now
  | some o => if o.startTime == 0 then .ok now else .ok o.startTime

/-- Base-time resolution of `VPUnixMilli.ParseValue` (part_007 lines
501-506): the condition reads `if opts != nil || opts.StartTime.IsZero()
{ t = opts.StartTime } else { t = time.Now() }`; a non-nil `opts`
short-circuits to `opts.StartTime` (even when zero), and a nil `opts`
evaluates `opts.StartTime` on the nil pointer — a panic. -/
def vpUnixMilliBaseTime (opts : Option ParseOptionsM) (_now : Int) : PanicOr Int :=
  match opts with
  | some o => .ok o.startTime
  | none => .error .nilDeref

/-- Base-time resolution of `VPUnixMicro.ParseValue` (part_007 lines
531-536; same inverted condition as milli). -/
def vpUnixMicroBaseTime (opts : Option ParseOptionsM) (_now : Int) : PanicOr Int :=
  match opts with
  | some o => .ok o.startTime
  | none => .error .nilDeref

/-- Base-time resolution of `VPUnixNano.ParseValue` (part_007 lines
561-566; same inverted condition as milli). -/
def vpUnixNanoBaseTime (opts : Option ParseOptionsM) (_now : Int) : PanicOr Int :=
  match opts with
  | some o => .ok o.startTime
  | none => .error .nilDeref

/-- Modelled from the spec: the *intended* base-time semantics of the
unix-epoch peekers — prefer `opts.StartTime` when `opts` is non-nil
and `StartTime` is set, else the current time — which §9 of the spec
states explicitly, calling the code's inversion a bug. -/
def intendedUnixBaseTime (opts : Option ParseOptionsM) (now : Int) : Int :=
  match opts with
  | none => now
  | some o => if o.startTime == 0 then now else o.startTime

/-- `VPUnixSec.ParseValue` (part_007 lines 470-487); the stored cell is
`t.Unix()`, i.e. the nanosecond timestamp divided down to seconds. -/
def vpUnixSecParseValue (parseTimeF : GoStr → Int → Except GoValErr Int)
    (now : Int) (opts : Option ParseOptionsM) (arg : GoStr) (cell : Int)
    (set : Bool) : PanicOr (Option GoValErr × Int) :=
  match vpUnixSecBaseTime opts now with
  | .error p => .error p
  | .ok t =>
    match parseTimeF arg t with
    | .error e => .ok (some e, cell)
    | .ok t' => .ok (none, if set then t' / 1000000000 else cell)

/-- `VPUnixMilli.ParseValue` (part_007 lines 500-517). -/
def vpUnixMilliParseValue (parseTimeF : GoStr → Int → Except GoValErr Int)
    (now : Int) (opts : Option ParseOptionsM) (arg : GoStr) (cell : Int)
    (set : Bool) : PanicOr (Option GoValErr × Int) :=
  match vpUnixMilliBaseTime opts now with
  | .error p => .error p
  | .ok t =>
    match parseTimeF arg t with
    | .error e => .ok (some e, cell)
    | .ok t' => .ok (none, if set then t' / 1000000 else cell)

/-- `VPUnixMicro.ParseValue` (part_007 lines 530-547). -/
def vpUnixMicroParseValue (parseTimeF : GoStr → Int → Except GoValErr Int)
    (now : Int) (opts : Option ParseOptionsM) (arg : GoStr) (cell : Int)
    (set : Bool) : PanicOr (Option GoValErr × Int) :=
  match vpUnixMicroBaseTime opts now with
  | .error p => .error p
  | .ok t =>
    match parseTimeF arg t with
    | .error e => .ok (some e, cell)
    | .ok t' => .ok (none, if set then t' / 1000 else cell)

/-- `VPUnixNano.ParseValue` (part_007 lines 560-577). -/
def vpUnixNanoParseValue (parseTimeF : GoStr → Int → Except GoValErr Int)
    (now : Int) (opts : Option ParseOptionsM) (arg : GoStr) (cell : Int)
    (set : Bool) : PanicOr (Option GoValErr × Int) :=
  match vpUnixNanoBaseTime opts now with
  | .error p => .error p
  | .ok t =>
    match parseTimeF arg t with
    | .error e => .ok (some e, cell)
    | .ok t' => .ok (none, if set then t' else cell)

/-- **C5.** The claim states all four unix-epoch peekers resolve the
base time as `intendedUnixBaseTime` (prefer a set `opts.StartTime`,
else the current time) and never dereference a nil `opts`.  In the
code this holds for `VPUnixSec` only; `VPUnixMilli`, `VPUnixMicro` and
`VPUnixNano` have the condition inverted: they panic (nil dereference)
on a nil `opts`, and with a non-nil `opts` whose `StartTime` is zero
they use the zero time instead of the current time. -/
theorem claim_C5_unix_start_time_inversion :
    (∀ (opts : Option ParseOptionsM) (now : Int),
      vpUnixSecBaseTime opts now = .ok (intendedUnixBaseTime opts now)) ∧
    (∀ (parseTimeF : GoStr → Int → Except GoValErr Int) (now : Int)
      (arg : GoStr) (cell : Int) (set : Bool),
      vpUnixMilliParseValue parseTimeF now none arg cell set =
          .error .nilDeref ∧
        vpUnixMicroParseValue parseTimeF now none arg cell set =
          .error .nilDeref ∧
        vpUnixNanoParseValue parseTimeF now none arg cell set =
          .error .nilDeref) ∧
    vpUnixMilliBaseTime (some { startTime := 0 }) 5 = .ok 0 ∧
    intendedUnixBaseTime (some { startTime := 0 }) 5 = 5 := by
  refine ⟨?_, ?_, rfl, rfl⟩
  · intro opts now
    cases opts with
    | none => rfl
    | some o =>
      rw [vpUnixSecBaseTime, intendedUnixBaseTime]
      by_cases h : o.startTime == 0
      · simp [h]
      · simp [h]
  · intro parseTimeF now arg cell set
    exact ⟨rfl, rfl, rfl⟩


/-! ## Size and duration grammars (part_008) — C6

Float segments (`strconv.ParseFloat` and the multiplication
`uint64(float64frombits(uv) * float64(unit))`) are abstracted by the
type parameter `F` with `parseFloatF` / `floatMulUnit`; the calendar
arithmetic `time.Time.AddDate` used for year/month durations is the
parameter `addDateF (years months base)`. -/

/-- `s[a:b]` on the rune model. -/
def goSlice (s : GoStr) (a b : Nat) : GoStr := (s.drop a).take (b - a)

/-- `parseNum` (part_008 lines 134-150): strip a leading `-`, try
`strconv.ParseUint(str, 0, 64)` unless a float is assumed, then fall
back to float parsing.  Returns (negative, uint-or-float value,
error). -/
def parseNum (parseFloatF : GoStr → Option F) (str : GoStr) (assumeFloat : Bool) :
    Bool × (Nat ⊕ F) × Option GoValErr :=
  let neg := goHasPrefix str (gs "-")
  let str' := if neg then str.drop 1 else str
  if !assumeFloat then
    match goParseUint str' 64 with
    | .ok uv => (neg, .inl uv, none)
    | .error _ =>
      match parseFloatF str' with
      | some fv => (neg, .inr fv, none)
      | none => (neg, .inl 0, some .errSyntax)
  else
    match parseFloatF str' with
    | some fv => (neg, .inr fv, none)
    | none => (neg, .inl 0, some .errSyntax)

/-- `uintPlus` (part_008 lines 473-492): signed accumulation over a
`uint64` magnitude (addition wraps at `2^64`). -/
def uintPlus (aNeg : Bool) (aVal : Nat) (bNeg : Bool) (bVal : Nat) : Bool × Nat :=
  if (aNeg && bNeg) || (!aNeg && !bNeg) then (aNeg, (aVal + bVal) % 2 ^ 64)
  else if aNeg && !bNeg then
    if bVal > aVal then (false, bVal - aVal) else (true, aVal - bVal)
  else
    if aVal > bVal then (false, aVal - bVal) else (true, bVal - aVal)

/-- `sizeUnitInteger` (part_008 lines 494-523). -/
def sizeUnitInteger (c : Char) : Nat :=
  if c == 'B' || c == 'b' then 1
  else if c == 'K' || c == 'k' then 1024
  else if c == 'M' || c == 'm' then 1024 ^ 2
  else if c == 'G' || c == 'g' then 1024 ^ 3
  else if c == 'T' || c == 't' then 1024 ^ 4
  else if c == 'P' || c == 'p' then 1024 ^ 5
  else if c == 'E' || c == 'e' then 1024 ^ 6
  else 0

/-- The unit characters accepted by `parseSize`'s `case` label. -/
def isSizeUnitChar (c : Char) : Bool :=
  c == 'B' || c == 'b' || c == 'K' || c == 'k' || c == 'M' || c == 'm' ||
  c == 'G' || c == 'g' || c == 'T' || c == 't' || c == 'P' || c == 'p' ||
  c == 'E' || c == 'e'

/-- The byte loop of `parseSize` (part_008 lines 397-471).  The Go
`for` loop advances `i` every iteration; `fuel` is an upper bound on
iterations (callers pass `s.length + 2`, unreachable).  A final digit
falls through as the implicit unit `b` with `i` advanced, exactly as
the Go `fallthrough` does. -/
def parseSizeLoop (parseFloatF : GoStr → Option F) (floatMulUnit : F → Nat → Nat)
    (s : GoStr) :
    Nat → Nat → Nat → Bool → Nat → Bool → Bool × Nat × Option GoValErr
  | 0, _, _, neg, sz, _ => (neg, sz, none)
  | fuel + 1, i, start, neg, sz, hasDot =>
    if i < s.length then
      let c := s.getD i ' '
      if c == '.' then
        if hasDot then (false, 0, some (.invalidValue "floating-point" true s))
        else parseSizeLoop parseFloatF floatMulUnit s fuel (i + 1) start neg sz true
      else if isSizeUnitChar c then
        if i == 0 then (false, 0, some (.invalidValue "numeric" true s))
        else
          let pn := parseNum parseFloatF (goSlice s start i) hasDot
          match pn.2.2 with
          | some e => (neg, sz, some e)
          | none =>
            let add := match pn.2.1 with
              | .inl uv => (uv * sizeUnitInteger c) % 2 ^ 64
              | .inr fv => floatMulUnit fv (sizeUnitInteger c)
            let r := uintPlus neg sz pn.1 add
            let skip := decide (i + 1 < s.length) &&
              (s.getD (i + 1) ' ' == 'B' || s.getD (i + 1) ' ' == 'b')
            let iNext := if skip then i + 2 else i + 1
            parseSizeLoop parseFloatF floatMulUnit s fuel iNext iNext r.1 r.2 false
      else if c < '0' || c > '9' then
        (false, 0, some (.invalidValue "numeric" true s))
      else if i + 1 != s.length then
        parseSizeLoop parseFloatF floatMulUnit s fuel (i + 1) start neg sz hasDot
      else
        -- trailing digit: assume byte, `i++` and fall through with c = 'b'
        let pn := parseNum parseFloatF (goSlice s start (i + 1)) hasDot
        match pn.2.2 with
        | some e => (neg, sz, some e)
        | none =>
          let add := match pn.2.1 with
            | .inl uv => (uv * sizeUnitInteger 'b') % 2 ^ 64
            | .inr fv => floatMulUnit fv (sizeUnitInteger 'b')
          let r := uintPlus neg sz pn.1 add
          parseSizeLoop parseFloatF floatMulUnit s fuel (i + 2) (i + 2) r.1 r.2 false
    else (neg, sz, none)

/-- `parseSize` (part_008 lines 397-471). -/
def parseSize (parseFloatF : GoStr → Option F) (floatMulUnit : F → Nat → Nat)
    (s : GoStr) : Bool × Nat × Option GoValErr :=
  parseSizeLoop parseFloatF floatMulUnit s (s.length + 2) 0 0 false 0 false

/-- Per-iteration state of `parseDuration`'s loop. -/
structure DurState where
  start : Nat
  adjust : Nat
  isFloat : Bool
  neg : Bool
  dur : Nat
  base : Int

/-- The shared "got a unit" tail of `parseDuration` (part_008 lines
317-331): parse the pending segment and accumulate `unit`-scaled. -/
def durUnitStep (parseFloatF : GoStr → Option F) (floatMulUnit : F → Nat → Nat)
    (s : GoStr) (st : DurState) (iEnd : Nat) (unit : Nat) :
    (Bool × Nat × Option GoValErr) ⊕ (Bool × Nat) :=
  let pn := parseNum parseFloatF (goSlice s st.start (iEnd - st.adjust)) st.isFloat
  match pn.2.2 with
  | some e => .inl (st.neg, st.dur, some e)
  | none =>
    match pn.2.1 with
    | .inl uv => .inr (uintPlus st.neg st.dur pn.1 ((uv * unit) % 2 ^ 64))
    | .inr fv => .inr (uintPlus st.neg st.dur pn.1 (floatMulUnit fv unit))

/-- The year/month tail of `parseDuration` (part_008 lines 170-198 and
222-246): integer-only segment resolved through `AddDate` against the
running base time. -/
def durCalendarStep (parseFloatF : GoStr → Option F)
    (addDateF : Int → Int → Int → Int) (s : GoStr) (st : DurState) (iEnd : Nat)
    (typeName : String) (years : Bool) :
    (Bool × Nat × Option GoValErr) ⊕ (Bool × Nat × Int) :=
  let pn := parseNum parseFloatF (goSlice s st.start (iEnd - st.adjust)) st.isFloat
  match pn.2.2 with
  | some e => .inl (st.neg, st.dur, some e)
  | none =>
    match pn.2.1 with
    | .inr _ => .inl (st.neg, st.dur, some (.invalidValue typeName true s))
    | .inl uv =>
      let amount : Int := if pn.1 then -(uv : Int) else (uv : Int)
      let x := if years then addDateF amount 0 st.base
        else addDateF 0 amount st.base
      let delta : Nat := if pn.1 then (st.base - x).toNat else (x - st.base).toNat
      let r := uintPlus st.neg st.dur pn.1 delta
      .inr (r.1, r.2, x)

/-- The byte loop of `parseDuration` (part_008 lines 152-334), with
the same fuel convention as `parseSizeLoop`. -/
def parseDurationLoop (parseFloatF : GoStr → Option F)
    (floatMulUnit : F → Nat → Nat) (addDateF : Int → Int → Int → Int)
    (s : GoStr) : Nat → Nat → DurState → Bool × Nat × Option GoValErr
  | 0, _, st => (st.neg, st.dur, none)
  | fuel + 1, i, st =>
    if i < s.length then
      let c := s.getD i ' '
      let n := s.length
      if c == 'y' then
        match durCalendarStep parseFloatF addDateF s st i "year (integer-only)" true with
        | .inl r => r
        | .inr (neg', dur', base') =>
          let iY := if i + 1 < n && s.getD (i + 1) ' ' == 'r' then i + 1 else i
          parseDurationLoop parseFloatF floatMulUnit addDateF s fuel (iY + 1)
            ⟨iY + 1, 0, false, neg', dur', base'⟩
      else if c == 'M' then
        match durCalendarStep parseFloatF addDateF s st i "month (integer-only)" false with
        | .inl r => r
        | .inr (neg', dur', base') =>
          parseDurationLoop parseFloatF floatMulUnit addDateF s fuel (i + 1)
            ⟨i + 1, 0, false, neg', dur', base'⟩
      else if c == 'm' then
        if i + 1 < n then
          if s.getD (i + 1) ' ' == 's' then
            match durUnitStep parseFloatF floatMulUnit s { st with adjust := 1 }
                (i + 1) 1000000 with
            | .inl r => r
            | .inr (neg', dur') =>
              parseDurationLoop parseFloatF floatMulUnit addDateF s fuel (i + 2)
                ⟨i + 2, 0, false, neg', dur', st.base⟩
          else if s.getD (i + 1) ' ' == 't' then
            match durCalendarStep parseFloatF addDateF s { st with adjust := 1 }
                (i + 1) "month (integer-only)" false with
            | .inl r => r
            | .inr (neg', dur', base') =>
              parseDurationLoop parseFloatF floatMulUnit addDateF s fuel (i + 2)
                ⟨i + 2, 0, false, neg', dur', base'⟩
          else
            match durUnitStep parseFloatF floatMulUnit s st i 60000000000 with
            | .inl r => r
            | .inr (neg', dur') =>
              parseDurationLoop parseFloatF floatMulUnit addDateF s fuel (i + 1)
                ⟨i + 1, 0, false, neg', dur', st.base⟩
        else
          match durUnitStep parseFloatF floatMulUnit s st i 60000000000 with
          | .inl r => r
          | .inr (neg', dur') =>
            parseDurationLoop parseFloatF floatMulUnit addDateF s fuel (i + 1)
              ⟨i + 1, 0, false, neg', dur', st.base⟩
      else if c == '.' then
        if st.isFloat then (false, 0, some (.invalidValue "floating-point" true s))
        else
          parseDurationLoop parseFloatF floatMulUnit addDateF s fuel (i + 1)
            { st with isFloat := true }
      else if c == 's' then
        match durUnitStep parseFloatF floatMulUnit s st i 1000000000 with
        | .inl r => r
        | .inr (neg', dur') =>
          parseDurationLoop parseFloatF floatMulUnit addDateF s fuel (i + 1)
            ⟨i + 1, 0, false, neg', dur', st.base⟩
      else if c == 'n' then
        if i + 1 < n && s.getD (i + 1) ' ' == 's' then
          match durUnitStep parseFloatF floatMulUnit s { st with adjust := 1 }
              (i + 1) 1 with
          | .inl r => r
          | .inr (neg', dur') =>
            parseDurationLoop parseFloatF floatMulUnit addDateF s fuel (i + 2)
              ⟨i + 2, 0, false, neg', dur', st.base⟩
        else (st.neg, st.dur, some (.invalidValue "unit (ns)" true s))
      else if c == 'u' then
        if i + 1 < n && s.getD (i + 1) ' ' == 's' then
          match durUnitStep parseFloatF floatMulUnit s { st with adjust := 1 }
              (i + 1) 1000 with
          | .inl r => r
          | .inr (neg', dur') =>
            parseDurationLoop parseFloatF floatMulUnit addDateF s fuel (i + 2)
              ⟨i + 2, 0, false, neg', dur', st.base⟩
        else (st.neg, st.dur, some (.invalidValue "unit (us)" true s))
      else if c == 'h' then
        if i + 1 < n && s.getD (i + 1) ' ' == 'r' then
          match durUnitStep parseFloatF floatMulUnit s { st with adjust := 1 }
              (i + 1) 3600000000000 with
          | .inl r => r
          | .inr (neg', dur') =>
            parseDurationLoop parseFloatF floatMulUnit addDateF s fuel (i + 2)
              ⟨i + 2, 0, false, neg', dur', st.base⟩
        else
          match durUnitStep parseFloatF floatMulUnit s st i 3600000000000 with
          | .inl r => r
          | .inr (neg', dur') =>
            parseDurationLoop parseFloatF floatMulUnit addDateF s fuel (i + 1)
              ⟨i + 1, 0, false, neg', dur', st.base⟩
      else if c == 'd' then
        match durUnitStep parseFloatF floatMulUnit s st i 86400000000000 with
        | .inl r => r
        | .inr (neg', dur') =>
          parseDurationLoop parseFloatF floatMulUnit addDateF s fuel (i + 1)
            ⟨i + 1, 0, false, neg', dur', st.base⟩
      else if c == 'w' then
        match durUnitStep parseFloatF floatMulUnit s st i 604800000000000 with
        | .inl r => r
        | .inr (neg', dur') =>
          parseDurationLoop parseFloatF floatMulUnit addDateF s fuel (i + 1)
            ⟨i + 1, 0, false, neg', dur', st.base⟩
      else if c < '0' || c > '9' then
        (false, 0, some (.invalidValue "numeric" true s))
      else if i + 1 != s.length then
        parseDurationLoop parseFloatF floatMulUnit addDateF s fuel (i + 1) st
      else
        -- trailing digit: assume seconds, `i++` and fall through to 's'
        match durUnitStep parseFloatF floatMulUnit s st (i + 1) 1000000000 with
        | .inl r => r
        | .inr (neg', dur') =>
          parseDurationLoop parseFloatF floatMulUnit addDateF s fuel (i + 2)
            ⟨i + 2, 0, false, neg', dur', st.base⟩
    else (st.neg, st.dur, none)

/-- `parseDuration` (part_008 lines 152-334). -/
def parseDuration (parseFloatF : GoStr → Option F)
    (floatMulUnit : F → Nat → Nat) (addDateF : Int → Int → Int → Int)
    (s : GoStr) (base : Int) : Bool × Nat × Option GoValErr :=
  parseDurationLoop parseFloatF floatMulUnit addDateF s (s.length + 2) 0
    ⟨0, 0, false, false, 0, base⟩


/-- **C6.** The claim says a leading `-` is permitted and negates the
magnitude.  In the code both scanners reject `-` outright: the first
byte of `"-…"` falls into the digit check `c < '0' || c > '9'` and
returns the invalid-value "numeric" error, for *every* suffix — so no
size or duration string with a leading `-` parses at all, while the
unprefixed strings (e.g. `1G`, `1h`) do parse. -/
theorem claim_C6_leading_minus_rejected :
    (∀ (F : Type) (pf : GoStr → Option F) (fm : F → Nat → Nat) (s : GoStr),
      parseSize pf fm ('-' :: s) =
        (false, 0, some (.invalidValue "numeric" true ('-' :: s)))) ∧
    (∀ (F : Type) (pf : GoStr → Option F) (fm : F → Nat → Nat)
      (ad : Int → Int → Int → Int) (s : GoStr) (base : Int),
      parseDuration pf fm ad ('-' :: s) base =
        (false, 0, some (.invalidValue "numeric" true ('-' :: s)))) ∧
    parseSize (fun _ => none : GoStr → Option Unit) (fun _ _ => 0) (gs "1G") =
      (false, 1073741824, none) ∧
    parseDuration (fun _ => none : GoStr → Option Unit) (fun _ _ => 0)
      (fun _ _ b => b) (gs "1h") 0 = (false, 3600000000000, none) := by
  refine ⟨?_, ?_, by decide, by decide⟩
  · intro F pf fm s
    show parseSizeLoop pf fm ('-' :: s) (s.length + 2 + 1) 0 0 false 0 false = _
    rw [parseSizeLoop]
    simp [isSizeUnitChar]
  · intro F pf fm ad s base
    show parseDurationLoop pf fm ad ('-' :: s) (s.length + 2 + 1) 0
      ⟨0, 0, false, false, 0, base⟩ = _
    rw [parseDurationLoop]
    simp


/-! ## The remaining value peekers (part_007) — C7

Stdlib collaborators are abstracted as parameters: `parseFloatF` /
`badRoundTrip` / `convert` for `strconv.ParseFloat` plus the width
round-trip test, `compileF` for `regexp.Compile`, `parseTimeF` for
`parseTime`, `fitsNeg`/`fitsPos` for the generic integer-width
round-trip checks of `VPSize`/`VPDuration`. -/

/-- `VPString.ParseValue` (part_007 lines 33-38). -/
def vpStringParseValue (_opts : Option ParseOptionsM) (arg : GoStr)
    (cell : GoStr) (set : Bool) : Option GoValErr × GoStr :=
  (none, if set then arg else cell)

/-- `VPBool.ParseValue` (part_007 lines 182-200). -/
def vpBoolParseValue (_opts : Option ParseOptionsM) (arg : GoStr)
    (cell : Bool) (set : Bool) : Option GoValErr × Bool :=
  if arg == gs "true" || arg == gs "yes" || arg == gs "y" ||
      arg == gs "on" || arg == gs "1" then
    (none, if set then true else cell)
  else if arg == gs "false" || arg == gs "no" || arg == gs "n" ||
      arg == gs "off" || arg == gs "0" then
    (none, if set then false else cell)
  else (some (.invalidValue "bool" false arg), cell)

/-- `VPUint.ParseValue` (part_007 lines 117-129). -/
def vpUintParseValue (bitSize : Nat) (_opts : Option ParseOptionsM)
    (arg : GoStr) (cell : Nat) (set : Bool) : Option GoValErr × Nat :=
  match goParseUint arg bitSize with
  | .error e => (some e, cell)
  | .ok x => (none, if set then x else cell)

/-- `VPFloat.ParseValue` (part_007 lines 144-161). -/
def vpFloatParseValue (parseFloatF : GoStr → Option F) (badRoundTrip : F → Bool)
    (convert : F → G) (_opts : Option ParseOptionsM) (arg : GoStr)
    (cell : G) (set : Bool) : Option GoValErr × G :=
  match parseFloatF arg with
  | none => (some .errSyntax, cell)
  | some x =>
    if badRoundTrip x then (some .errRange, cell)
    else (none, if set then convert x else cell)

/-- `VPRegexp.ParseValue` (part_007 lines 218-230). -/
def vpRegexpParseValue (compileF : GoStr → Option R)
    (_opts : Option ParseOptionsM) (arg : GoStr) (cell : R) (set : Bool) :
    Option GoValErr × R :=
  match compileF arg with
  | none => (some (.other "regexp compile"), cell)
  | some x => (none, if set then x else cell)

/-- `VPRegexpNocase.ParseValue` (part_007 lines 252-263): compile the
argument wrapped in `(?i:` … `)`. -/
def vpRegexpNocaseParseValue (compileF : GoStr → Option R)
    (_opts : Option ParseOptionsM) (arg : GoStr) (cell : R) (set : Bool) :
    Option GoValErr × R :=
  match compileF (gs "(?i:" ++ arg ++ gs ")") with
  | none => (some (.other "regexp compile"), cell)
  | some x => (none, if set then x else cell)

/-- `VPSize.ParseValue` (part_007 lines 366-391). -/
def vpSizeParseValue (parseFloatF : GoStr → Option F)
    (floatMulUnit : F → Nat → Nat) (fitsNeg fitsPos : Nat → Bool)
    (_opts : Option ParseOptionsM) (arg : GoStr) (cell : Int) (set : Bool) :
    Option GoValErr × Int :=
  match parseSize parseFloatF floatMulUnit arg with
  | (neg, x, errOpt) =>
    match errOpt with
    | some e => (some e, cell)
    | none =>
      if neg then
        if !fitsNeg x then (some .errRange, cell)
        else (none, if set then -(x : Int) else cell)
      else
        if !fitsPos x then (some .errRange, cell)
        else (none, if set then (x : Int) else cell)

/-- The base-time resolution shared by `VPDuration.ParseValue` and
`VPTime.ParseValue` (part_007): `time.Now()` unless a non-nil `opts`
carries a non-zero `StartTime`. -/
def vpBaseTime (opts : Option ParseOptionsM) (now : Int) : Int :=
  match opts with
  | none => now
  | some o => if o.startTime == 0 then now else o.startTime

/-- `VPDuration.ParseValue` (part_007 lines 426-457), including its
(correctly oriented) base-time resolution. -/
def vpDurationParseValue (parseFloatF : GoStr → Option F)
    (floatMulUnit : F → Nat → Nat) (addDateF : Int → Int → Int → Int)
    (fitsNeg fitsPos : Nat → Bool) (now : Int)
    (opts : Option ParseOptionsM) (arg : GoStr) (cell : Int) (set : Bool) :
    Option GoValErr × Int :=
  match parseDuration parseFloatF floatMulUnit addDateF arg
      (vpBaseTime opts now) with
  | (neg, x, errOpt) =>
    match errOpt with
    | some e => (some e, cell)
    | none =>
      if neg then
        if !fitsNeg x then (some .errRange, cell)
        else (none, if set then -(x : Int) else cell)
      else
        if !fitsPos x then (some .errRange, cell)
        else (none, if set then (x : Int) else cell)

/-- `VPTime.ParseValue` (part_007 lines 599-616). -/
def vpTimeParseValue (parseTimeF : GoStr → Int → Except GoValErr Int)
    (now : Int) (opts : Option ParseOptionsM) (arg : GoStr) (cell : Int)
    (set : Bool) : Option GoValErr × Int :=
  match parseTimeF arg (vpBaseTime opts now) with
  | .error e => (some e, cell)
  | .ok t' => (none, if set then t' else cell)

/-- `VPSlice.ParseValue` (part_007 lines 782-798): with `set`, parse
one element into a zeroed temporary and append; otherwise validate the
element against a temporary. -/
def vpSliceParseValue
    (inner : Option ParseOptionsM → GoStr → α → Bool → Option GoValErr × α)
    (zero : α) (opts : Option ParseOptionsM) (arg : GoStr)
    (cell : List α) (set : Bool) : Option GoValErr × List α :=
  if set then
    let r := inner opts arg zero true
    match r.1 with
    | some e => (some e, cell)
    | none => (none, cell ++ [r.2])
  else
    let r := inner opts arg zero false
    (r.1, cell)

/-- Go map lookup on the association-list model. -/
def mapGet [BEq K] (m : List (K × V)) (k : K) : Option V :=
  (m.find? (fun p => p.1 == k)).map (fun p => p.2)

/-- Go map store on the association-list model. -/
def mapPut [BEq K] (m : List (K × V)) (k : K) (v : V) : List (K × V) :=
  match m.find? (fun p => p.1 == k) with
  | some _ => m.map (fun p => if p.1 == k then (k, v) else p)
  | none => m ++ [(k, v)]

/-- `VPMap.ParseValue` (part_007 lines 692-732): split on the first
`=`, parse key and value (the existing entry seeding the value
accumulator when `set`), update the entry only when `set` (allocating
the map when it is nil = `none`). -/
def vpMapParseValue [BEq K]
    (innerK : Option ParseOptionsM → GoStr → K → Bool → Option GoValErr × K)
    (innerV : Option ParseOptionsM → GoStr → V → Bool → Option GoValErr × V)
    (zeroK : K) (zeroV : V) (opts : Option ParseOptionsM) (arg : GoStr)
    (cell : Option (List (K × V))) (set : Bool) :
    Option GoValErr × Option (List (K × V)) :=
  let cut := goCut arg (gs "=")
  if !cut.2.2 then (some (.invalidValue "map" false arg), cell)
  else
    let rk := innerK opts cut.1 zeroK set
    match rk.1 with
    | some e => (some e, cell)
    | none =>
      let val0 := if set then
          (match cell with
           | some m => (mapGet m rk.2).getD zeroV
           | none => zeroV)
        else zeroV
      let rv := innerV opts cut.2.1 val0 set
      match rv.1 with
      | some e => (some e, cell)
      | none =>
        if !set then (none, cell)
        else
          let m := match cell with
            | some m0 => m0
            | none => []
          (none, some (mapPut m rk.2 rv.2))

/-- `VPPointer.ParseValue` (part_007 lines 810-829): with `set`, write
through an existing target or allocate on first successful set; with
`set = false` validate against a zeroed temporary. -/
def vpPointerParseValue
    (inner : Option ParseOptionsM → GoStr → α → Bool → Option GoValErr × α)
    (zero : α) (opts : Option ParseOptionsM) (arg : GoStr)
    (cell : Option α) (set : Bool) : Option GoValErr × Option α :=
  if set then
    match cell with
    | some v =>
      let r := inner opts arg v true
      (r.1, some r.2)
    | none =>
      let r := inner opts arg zero true
      match r.1 with
      | some e => (some e, cell)
      | none => (none, some r.2)
  else
    let r := inner opts arg zero false
    (r.1, cell)

/-- **C7.** Validate-only never mutates the storage cell: for every
built-in generic value peeker, a `ParseValue` call with `set = false`
returns the cell exactly as it was, whether the result is success or
an error (for the panicking unix variants, on every non-panicking
outcome). -/
theorem claim_C7_set_false_frame :
    (∀ (opts : Option ParseOptionsM) (arg cell : GoStr),
      (vpStringParseValue opts arg cell false).2 = cell) ∧
    (∀ (opts : Option ParseOptionsM) (arg : GoStr) (cell : Bool),
      (vpBoolParseValue opts arg cell false).2 = cell) ∧
    (∀ (bitSize : Nat) (opts : Option ParseOptionsM) (arg : GoStr) (cell : Int),
      (vpIntParseValue bitSize opts arg cell false).2 = cell) ∧
    (∀ (bitSize : Nat) (opts : Option ParseOptionsM) (arg : GoStr) (cell : Nat),
      (vpUintParseValue bitSize opts arg cell false).2 = cell) ∧
    (∀ (F G : Type) (pf : GoStr → Option F) (bad : F → Bool) (conv : F → G)
      (opts : Option ParseOptionsM) (arg : GoStr) (cell : G),
      (vpFloatParseValue pf bad conv opts arg cell false).2 = cell) ∧
    (∀ (R : Type) (cf : GoStr → Option R) (opts : Option ParseOptionsM)
      (arg : GoStr) (cell : R),
      (vpRegexpParseValue cf opts arg cell false).2 = cell ∧
        (vpRegexpNocaseParseValue cf opts arg cell false).2 = cell) ∧
    (∀ (F : Type) (pf : GoStr → Option F) (fm : F → Nat → Nat)
      (fn fp : Nat → Bool) (opts : Option ParseOptionsM) (arg : GoStr)
      (cell : Int),
      (vpSizeParseValue pf fm fn fp opts arg cell false).2 = cell) ∧
    (∀ (F : Type) (pf : GoStr → Option F) (fm : F → Nat → Nat)
      (ad : Int → Int → Int → Int) (fn fp : Nat → Bool) (now : Int)
      (opts : Option ParseOptionsM) (arg : GoStr) (cell : Int),
      (vpDurationParseValue pf fm ad fn fp now opts arg cell false).2 = cell) ∧
    (∀ (ptf : GoStr → Int → Except GoValErr Int) (now : Int)
      (opts : Option ParseOptionsM) (arg : GoStr) (cell : Int),
      (vpTimeParseValue ptf now opts arg cell false).2 = cell) ∧
    (∀ (ptf : GoStr → Int → Except GoValErr Int) (now : Int)
      (opts : Option ParseOptionsM) (arg : GoStr) (cell : Int),
      vpUnixSecParseValue ptf now opts arg cell false =
          (vpUnixSecParseValue ptf now opts arg cell false).map
            (fun p => (p.1, cell)) ∧
        vpUnixMilliParseValue ptf now opts arg cell false =
          (vpUnixMilliParseValue ptf now opts arg cell false).map
            (fun p => (p.1, cell)) ∧
        vpUnixMicroParseValue ptf now opts arg cell false =
          (vpUnixMicroParseValue ptf now opts arg cell false).map
            (fun p => (p.1, cell)) ∧
        vpUnixNanoParseValue ptf now opts arg cell false =
          (vpUnixNanoParseValue ptf now opts arg cell false).map
            (fun p => (p.1, cell))) ∧
    (∀ (α : Type) (inner : Option ParseOptionsM → GoStr → α → Bool →
        Option GoValErr × α) (zero : α) (opts : Option ParseOptionsM)
      (arg : GoStr) (cell : α),
      (vpSumParseValue inner zero (fun a b => a) opts arg cell false).2
        = cell) ∧
    (∀ (α : Type) (inner : Option ParseOptionsM → GoStr → α → Bool →
        Option GoValErr × α) (zero : α) (opts : Option ParseOptionsM)
      (arg : GoStr) (cell : List α),
      (vpSliceParseValue inner zero opts arg cell false).2 = cell) ∧
    (∀ (K V : Type) (inst : BEq K)
      (innerK : Option ParseOptionsM → GoStr → K → Bool → Option GoValErr × K)
      (innerV : Option ParseOptionsM → GoStr → V → Bool → Option GoValErr × V)
      (zeroK : K) (zeroV : V) (opts : Option ParseOptionsM) (arg : GoStr)
      (cell : Option (List (K × V))),
      (vpMapParseValue innerK innerV zeroK zeroV opts arg cell false).2
        = cell) ∧
    (∀ (α : Type) (inner : Option ParseOptionsM → GoStr → α → Bool →
        Option GoValErr × α) (zero : α) (opts : Option ParseOptionsM)
      (arg : GoStr) (cell : Option α),
      (vpPointerParseValue inner zero opts arg cell false).2 = cell) := by
  refine ⟨?_, ?_, ?_, ?_, ?_, ?_, ?_, ?_, ?_, ?_, ?_, ?_, ?_, ?_⟩
  · intro opts arg cell
    rfl
  · intro opts arg cell
    rw [vpBoolParseValue]
    split
    · rfl
    · split
      · rfl
      · rfl
  · intro bitSize opts arg cell
    rw [vpIntParseValue]
    cases goParseInt arg bitSize with
    | error e => rfl
    | ok x => rfl
  · intro bitSize opts arg cell
    rw [vpUintParseValue]
    cases goParseUint arg bitSize with
    | error e => rfl
    | ok x => rfl
  · intro F G pf bad conv opts arg cell
    rw [vpFloatParseValue]
    cases pf arg with
    | none => rfl
    | some x =>
      by_cases h : bad x = true
      · simp [h]
      · simp [h]
  · intro R cf opts arg cell
    constructor
    · rw [vpRegexpParseValue]
      cases cf arg with
      | none => rfl
      | some x => rfl
    · rw [vpRegexpNocaseParseValue]
      cases cf (gs "(?i:" ++ arg ++ gs ")") with
      | none => rfl
      | some x => rfl
  · intro F pf fm fn fp opts arg cell
    rw [vpSizeParseValue]
    rcases parseSize pf fm arg with ⟨neg, x, errOpt⟩
    cases errOpt with
    | some e => rfl
    | none =>
      cases neg with
      | true =>
        by_cases h : fn x = true
        · simp [h]
        · simp [h]
      | false =>
        by_cases h : fp x = true
        · simp [h]
        · simp [h]
  · intro F pf fm ad fn fp now opts arg cell
    rw [vpDurationParseValue]
    rcases parseDuration pf fm ad arg (vpBaseTime opts now) with ⟨neg, x, errOpt⟩
    cases errOpt with
    | some e => rfl
    | none =>
      cases neg with
      | true =>
        by_cases h : fn x = true
        · simp [h]
        · simp [h]
      | false =>
        by_cases h : fp x = true
        · simp [h]
        · simp [h]
  · intro ptf now opts arg cell
    rw [vpTimeParseValue]
    rcases ptf arg (vpBaseTime opts now) with e | t
    · rfl
    · rfl
  · intro ptf now opts arg cell
    refine ⟨?_, ?_, ?_, ?_⟩
    · rw [vpUnixSecParseValue]
      cases vpUnixSecBaseTime opts now with
      | error p => rfl
      | ok t =>
        cases hk : ptf arg t with
        | error e => simp [hk, Except.map]
        | ok t2 => simp [hk, Except.map]
    · rw [vpUnixMilliParseValue]
      cases vpUnixMilliBaseTime opts now with
      | error p => rfl
      | ok t =>
        cases hk : ptf arg t with
        | error e => simp [hk, Except.map]
        | ok t2 => simp [hk, Except.map]
    · rw [vpUnixMicroParseValue]
      cases vpUnixMicroBaseTime opts now with
      | error p => rfl
      | ok t =>
        cases hk : ptf arg t with
        | error e => simp [hk, Except.map]
        | ok t2 => simp [hk, Except.map]
    · rw [vpUnixNanoParseValue]
      cases vpUnixNanoBaseTime opts now with
      | error p => rfl
      | ok t =>
        cases hk : ptf arg t with
        | error e => simp [hk, Except.map]
        | ok t2 => simp [hk, Except.map]
  · intro α inner zero opts arg cell
    rw [vpSumParseValue]
    cases h : (inner opts arg zero false).1 with
    | some e => simp [h]
    | none => simp [h]
  · intro α inner zero opts arg cell
    rw [vpSliceParseValue]
    simp
  · intro K V inst innerK innerV zeroK zeroV opts arg cell
    rw [vpMapParseValue.eq_def]
    by_cases hcut : (goCut arg (gs "=")).2.2 = true
    · simp only [hcut, Bool.not_true, Bool.false_eq_true, if_false]
      cases hk : (innerK opts (goCut arg (gs "=")).1 zeroK false).1 with
      | some e => simp [hk]
      | none =>
        simp only [hk]
        cases hv : (innerV opts (goCut arg (gs "=")).2.1 zeroV false).1 with
        | some e => simp [hk, hv]
        | none => simp [hk, hv]
    · simp only [Bool.not_eq_true] at hcut
      simp [hcut]
  · intro α inner zero opts arg cell
    rw [vpPointerParseValue.eq_def]
    simp


/-! ## Shell completion (comp.go) — C8, C9

The completion task machinery of comp.go.  `CompState` is a `uint32`
bit set; the bits are the `Nat` constants below.  `strings.EqualFold`
is modelled as lower-case equality of runes, and the byte lengths in
`isSimilar`'s bounds as rune counts (they agree on ASCII input, the
only input the library's own names use). -/

def compStateFailed : Nat := 1
def compStateDone : Nat := 2
def compStateHasFlagNames : Nat := 4
def compStateHasFlagValues : Nat := 8
def compStateHasSubcmds : Nat := 16
def compStateHasFiles : Nat := 32
def compStateHasDirs : Nat := 64

/-- `strings.Contains`: `sub` occurs contiguously in `s`. -/
def goContains (s sub : GoStr) : Bool :=
  (List.range (s.length + 1)).any (fun i => sub.isPrefixOf (s.drop i))

/-- `strings.EqualFold` on a single rune (simple case folding). -/
def eqFoldChar (a b : Char) : Bool := a.toLower == b.toLower

/-- One row of the Levenshtein matrix of `max63Lev` (part_008): given
the diagonal entry, the rest of the previous row and the entry to the
left, produce the new row past its leading column. -/
def levRowAux (nocase : Bool) (cy : Char) :
    GoStr → Nat → List Nat → Nat → List Nat
  | [], _, _, _ => []
  | cx :: xs, diag, prevRow, left =>
    let up := prevRow.headD 0
    let v := if (!nocase && cx == cy) || (nocase && eqFoldChar cx cy) then diag
             else min (min up left) diag + 1
    v :: levRowAux nocase cy xs up (prevRow.drop 1) v

/-- The row loop of `max63Lev` (part_008): fold the rows of `y` over
the matrix, answering the last entry of the final row. -/
def max63LevLoop (nocase : Bool) (x : GoStr) :
    GoStr → List Nat → Nat → Nat
  | [], row, _ => row.getLast?.getD 0
  | cy :: ys, row, rowIdx =>
    let newRow := (rowIdx + 1) ::
      levRowAux nocase cy x (row.headD 0) (row.drop 1) (rowIdx + 1)
    max63LevLoop nocase x ys newRow (rowIdx + 1)

/-- `max63Lev` (part_008): Levenshtein distance between `y` and `x`. -/
def max63Lev (nocase : Bool) (y x : GoStr) : Nat :=
  max63LevLoop nocase x y (List.range (x.length + 1)) 0

/-- `isSimilar` (part_008 lines 552-570): true when the Levenshtein
distance is below `min 3 known.length` (the two sub-64 branches both
compute the same symmetric distance; the size guard keeps the Go
implementation's static buffers in range). -/
def isSimilarStr (known toCompare : GoStr) (nocase : Bool) : Bool :=
  if known.length == 0 then toCompare.length == 0
  else if toCompare.length == 0 then known.length < 3
  else if known.length < 64 || toCompare.length < 64 then
    max63Lev nocase known toCompare < min 3 known.length
  else false

/-- The generic `FindFlag` helper (part_001 lines 55-69) over a bare
finder function: try each name, skipping empty ones. -/
def findFlagBy (find : GoStr → Option (FlagM σ)) :
    List GoStr → Option (GoStr × FlagM σ)
  | [] => none
  | n :: rest =>
    if n.length == 0 then findFlagBy find rest
    else
      match find n with
      | some f => some (n, f)
      | none => findFlagBy find rest

/-- `CompTask` (comp.go lines 129-181).  The flag-storage heap `σ` is
threaded separately into the operations that call `Flag` methods. -/
structure CompTaskM (σ : Type) where
  result : List CompItemM := []
  executablePath : GoStr := []
  args : List GoStr := []
  at_ : Int := 0
  toComplete : GoStr := []
  route : RouteM σ := []
  posArgs : List GoStr := []
  dashArgs : List GoStr := []
  flagMissingValue : Option (FlagM σ) := none
  flagValuePrefix : GoStr := []
  state : Nat := 0
  want : Nat := 0

/-- `CompTask.Add` (comp.go lines 332-339): append unconditionally
(unless gated by Failed/Done), counting every item. -/
def taskAdd (tsk : CompTaskM σ) (force : Bool) (items : List CompItemM) :
    Nat × CompTaskM σ :=
  if !force && (tsk.state.land (compStateFailed + compStateDone) != 0) then
    (0, tsk)
  else (items.length, { tsk with result := tsk.result ++ items })

/-- `CompTask.AddMatched` (comp.go lines 342-355): keep only items
whose value starts with `ToComplete`. -/
def taskAddMatched (tsk : CompTaskM σ) (force : Bool)
    (items : List CompItemM) : Nat × CompTaskM σ :=
  if !force && (tsk.state.land (compStateFailed + compStateDone) != 0) then
    (0, tsk)
  else
    let kept := items.filter (fun it => goHasPrefix it.value tsk.toComplete)
    (kept.length, { tsk with result := tsk.result ++ kept })

/-- `CompTask.AddFiles` (comp.go lines 634-659). -/
def taskAddFiles (tsk : CompTaskM σ) (force : Bool) (globs : List GoStr) :
    Nat × CompTaskM σ :=
  if !force && (tsk.state.land
      (compStateHasFiles + compStateFailed + compStateDone) != 0) then
    (0, tsk)
  else
    let tsk1 := { tsk with state := tsk.state.lor compStateHasFiles }
    let items := (globs.filter (fun g => g.length != 0)).map
      (fun g => ({ value := g, kind := .files } : CompItemM))
    let r := taskAdd tsk1 force items
    if r.1 == 0 then
      let r2 := taskAdd r.2 force [({ kind := .files } : CompItemM)]
      (r.1 + r2.1, r2.2)
    else r

/-- `CompTask.AddDirs` (comp.go lines 662-687). -/
def taskAddDirs (tsk : CompTaskM σ) (force : Bool) (globs : List GoStr) :
    Nat × CompTaskM σ :=
  if !force && (tsk.state.land
      (compStateHasDirs + compStateFailed + compStateDone) != 0) then
    (0, tsk)
  else
    let tsk1 := { tsk with state := tsk.state.lor compStateHasDirs }
    let items := (globs.filter (fun g => g.length != 0)).map
      (fun g => ({ value := g, kind := .dirs } : CompItemM))
    let r := taskAdd tsk1 force items
    if r.1 == 0 then
      let r2 := taskAdd r.2 force [({ kind := .dirs } : CompItemM)]
      (r.1 + r2.1, r2.2)
    else r

/-- `CompAction.Suggest` for the modelled actions (comp.go lines
84-126): answers `(added, state-bits, task)`. -/
def compActionSuggest (a : CompActionM) (tsk : CompTaskM σ) :
    Nat × Nat × CompTaskM σ :=
  match a with
  | .disable =>
    (0, compStateFailed, { tsk with state := tsk.state.lor compStateFailed })
  | .static suggestions want state =>
    if want != 0 && tsk.want.land want == 0 then (0, 0, tsk)
    else
      let r := taskAddMatched tsk false suggestions
      (r.1, state, r.2)
  | .files =>
    let r := taskAddFiles tsk false []
    (r.1, 0, r.2)
  | .dirs =>
    let r := taskAddDirs tsk false []
    (r.1, 0, r.2)


/-- The bracketed-default expansion loop of `CompTask.AddFlagValues`
(comp.go lines 593-606): cut on `", "`, skipping the first entry when
the flag's value already changed.  `fuel` bounds the iterations (each
cut strictly shrinks the string; callers pass `length + 1`). -/
def bracketLoop (force vc : Bool) :
    Nat → Nat → GoStr → CompTaskM σ → Nat × CompTaskM σ
  | 0, _, _, tsk => (0, tsk)
  | fuel + 1, i, d, tsk =>
    if d.length == 0 then (0, tsk)
    else
      let cut := goCut d (gs ", ")
      if vc && i == 0 then bracketLoop force vc fuel (i + 1) cut.2.1 tsk
      else
        let r := taskAddMatched tsk force
          [{ value := cut.1, description := gs "default value",
             kind := .flagValue }]
        let r2 := bracketLoop force vc fuel (i + 1) cut.2.1 r.2
        (r.1 + r2.1, r2.2)

/-- The provider consultation of `CompTask.AddFlagValues` (comp.go
lines 568-576): `flag.(CompAction)` first, else
`flag.Extra().(CompAction)`; a hit runs `Suggest` and ORs its state
bits into the task. -/
def fvProviderStep (f : FlagM σ) (t : CompTaskM σ) : Nat × CompTaskM σ :=
  match (match f.selfComp with
         | some c => some c
         | none => f.extraComp) with
  | none => (0, t)
  | some c =>
    let r := compActionSuggest c t
    (r.1, { r.2.2 with state := r.2.2.state.lor r.2.1 })

/-- The default-string expansion of `CompTask.AddFlagValues` (comp.go
lines 582-615): bracketed `[v1, v2, …]` lists element by element
(skipping the first when the value already changed), a bare default
only when the value is unchanged. -/
def fvDefaultsStep (st : σ) (f : FlagM σ) (d : GoStr) (force : Bool)
    (r1 : Nat × CompTaskM σ) : Nat × CompTaskM σ :=
  if d.length == 0 then r1
  else if d.getD 0 ' ' == '[' && d.getD (d.length - 1) ' ' == ']' then
    let inner := (d.drop 1).take (d.length - 2)
    let rb := bracketLoop force (f.state st).valueChanged
      (inner.length + 1) 0 inner r1.2
    (r1.1 + rb.1, rb.2)
  else if !(f.state st).valueChanged then
    let ra := taskAddMatched r1.2 force
      [{ value := d, description := gs "default value",
         kind := .flagValue }]
    (r1.1 + ra.1, ra.2)
  else r1

/-- The `DeduceDefault` tail of `CompTask.AddFlagValues` (comp.go
lines 617-628): an unchanged flag that has a printable value suggests
that value. -/
def fvDeduceStep (st : σ) (f : FlagM σ) (force : Bool)
    (r2 : Nat × CompTaskM σ) : Nat × CompTaskM σ :=
  if !(f.state st).valueChanged && f.hasValue st then
    match f.printValue st with
    | some v =>
      let rd := taskAddMatched r2.2 force
        [{ value := v, description := gs "default value",
           kind := .flagValue }]
      (r2.1 + rd.1, rd.2)
    | none => r2
  else r2

/-- The post-gate body of `CompTask.AddFlagValues` (comp.go lines
566-630), on the task that already carries the flag-values bit. -/
def addFlagValuesCore (st : σ) (f : FlagM σ) (d : GoStr)
    (force addDefaults : Bool) (tsk1 : CompTaskM σ) : Nat × CompTaskM σ :=
  let r1 := fvProviderStep f tsk1
  if !addDefaults then r1
  else fvDeduceStep st f force (fvDefaultsStep st f d force r1)

/-- `CompTask.AddFlagValues` (comp.go lines 561-631): nil flag returns
at once (without touching the state); otherwise gate, set the
flag-values bit, and run the body above. -/
def taskAddFlagValues (tsk : CompTaskM σ) (st : σ) (force : Bool)
    (flag : Option (FlagM σ)) (d : GoStr) (addDefaults : Bool) :
    Nat × CompTaskM σ :=
  match flag with
  | none => (0, tsk)
  | some f =>
    if !force && (tsk.state.land
        (compStateHasFlagValues + compStateFailed + compStateDone) != 0) then
      (0, tsk)
    else
      addFlagValuesCore st f d force addDefaults
        { tsk with state := tsk.state.lor compStateHasFlagValues }

/-- The `for i := 0; ; i++ { NthFlag(i) … }` pattern of
`CompTask.AddFlagNames` (comp.go): run `body` on each enumerated
`FlagInfo` until the indexer runs out (`fuel` bounds iterations). -/
def nthLoop (nth : Nat → Option FlagInfoM)
    (body : FlagInfoM → CompTaskM σ → Nat × CompTaskM σ) :
    Nat → Nat → CompTaskM σ → Nat × CompTaskM σ
  | 0, _, tsk => (0, tsk)
  | fuel + 1, i, tsk =>
    match nth i with
    | none => (0, tsk)
    | some info =>
      let r := body info tsk
      let r2 := nthLoop nth body fuel (i + 1) r.2
      (r.1 + r2.1, r2.2)

/-- An iteration bound for `Route.NthFlag` enumeration: the sum of all
members' iterable flag lists (local and inherited), plus one. -/
def routeNthBound (p : RouteM σ) : Nat :=
  (match routeTarget p with
   | none => 0
   | some t =>
     match t.localFlags with
     | none => 0
     | some fi => match fi.nthList with | none => 0 | some l => l.length) +
  p.foldl (fun acc c =>
    acc + (match c.flags with
           | none => 0
           | some fi =>
             match fi.nthList with | none => 0 | some l => l.length)) 0 + 1

/-- The per-flag body of `CompTask.AddFlagNames` for an empty or
bare-hyphen `ToComplete` (comp.go lines 442-478): add the long name
and/or shorthand of every visible flag. -/
def flagNamesAllBody (st : σ) (force descr : Bool)
    (find : GoStr → Option (FlagM σ)) (info : FlagInfoM)
    (t : CompTaskM σ) : Nat × CompTaskM σ :=
  match findFlagBy find [info.name, info.shorthand] with
  | none => (0, t)
  | some (_, f) =>
    if (f.state st).hidden then (0, t)
    else
      let d1 : GoStr := if descr then f.usage else []
      let r1 := if info.name.length != 0 && !isShorthand info.name then
          taskAdd t force
            [{ value := info.name, kind := .flagName, description := d1 }]
        else (0, t)
      let r2 := if isShorthand info.shorthand then
          taskAdd r1.2 force
            [{ value := info.shorthand, kind := .flagName,
               description := d1 }]
        else (0, r1.2)
      (r1.1 + r2.1, r2.2)

/-- The per-flag body of `CompTask.AddFlagNames` for a `--`-prefixed
`ToComplete` (comp.go lines 479-509): long names matching the prefix
(or similar). -/
def flagNamesLongBody (st : σ) (force descr : Bool)
    (find : GoStr → Option (FlagM σ)) (pre : GoStr) (info : FlagInfoM)
    (t : CompTaskM σ) : Nat × CompTaskM σ :=
  if (info.name.length == 0 || isShorthand info.name ||
        !goHasPrefix info.name pre) &&
      !isSimilarStr info.name pre true then (0, t)
  else
    match findFlagBy find [info.name, info.shorthand] with
    | none => (0, t)
    | some (_, f) =>
      if (f.state st).hidden then (0, t)
      else
        taskAdd t force
          [{ value := info.name, kind := .flagName,
             description := if descr then f.usage else [] }]

/-- The per-flag body of `CompTask.AddFlagNames` for a shorthand
cluster `ToComplete` (comp.go lines 510-546): confirm shorthands
contained in the cluster. -/
def flagNamesShortBody (st : σ) (force descr : Bool)
    (find : GoStr → Option (FlagM σ)) (toComplete : GoStr)
    (info : FlagInfoM) (t : CompTaskM σ) : Nat × CompTaskM σ :=
  let sh := if isShorthand info.shorthand then info.shorthand
            else if isShorthand info.name then info.name else []
  if sh.length == 0 then (0, t)
  else
    match findFlagBy find [info.name, info.shorthand] with
    | none => (0, t)
    | some (_, f) =>
      if (f.state st).hidden || !goContains toComplete sh then (0, t)
      else
        taskAdd t force
          [{ value := sh, kind := .flagName,
             description := if descr then f.usage else [] }]

/-- `CompTask.AddFlagNames` (comp.go lines 429-550): three cases on
`ToComplete` (everything / long-name prefix / shorthand cluster). -/
def taskAddFlagNames (tsk : CompTaskM σ) (st : σ) (force descr : Bool)
    (flags : Option (FlagIndexerM σ)) : Nat × CompTaskM σ :=
  if !force && (tsk.state.land
      (compStateHasFlagNames + compStateFailed + compStateDone) != 0) then
    (0, tsk)
  else
    let tsk1 := { tsk with state := tsk.state.lor compStateHasFlagNames }
    let nth : Nat → Option FlagInfoM := match flags with
      | some fi => indexerNth fi
      | none => routeNthFlag tsk.route
    let find : GoStr → Option (FlagM σ) := match flags with
      | some fi => fi.find
      | none => routeFindFlag tsk.route
    let fuel := (match flags with
      | some fi => match fi.nthList with | none => 0 | some l => l.length
      | none => routeNthBound tsk.route) + 1
    if tsk.toComplete.length == 0 || tsk.toComplete == gs "-" then
      nthLoop nth (flagNamesAllBody st force descr find) fuel 0 tsk1
    else if goHasPrefix tsk.toComplete (gs "--") then
      nthLoop nth
        (flagNamesLongBody st force descr find (tsk.toComplete.drop 2))
        fuel 0 tsk1
    else if goHasPrefix tsk.toComplete (gs "-") then
      nthLoop nth
        (flagNamesShortBody st force descr find tsk.toComplete)
        fuel 0 tsk1
    else (0, tsk1)

/-- The pipe-separated-name loop of `CompTask.AddSubcmds` (comp.go
lines 401-419): add every name of the child matching by prefix or
similarity. -/
def subcmdNameLoop (force descr : Bool) (toComplete bu : GoStr) :
    Nat → GoStr → CompTaskM σ → Nat × CompTaskM σ
  | 0, _, tsk => (0, tsk)
  | fuel + 1, names, tsk =>
    if names.length == 0 then (0, tsk)
    else
      let cut := goCut names (gs "|")
      if !goHasPrefix cut.1 toComplete &&
          !isSimilarStr cut.1 toComplete true then
        subcmdNameLoop force descr toComplete bu fuel cut.2.1 tsk
      else
        let r := taskAdd tsk force
          [{ value := cut.1, description := if descr then bu else [] }]
        let r2 := subcmdNameLoop force descr toComplete bu fuel cut.2.1 r.2
        (r.1 + r2.1, r2.2)

/-- The children loop of `CompTask.AddSubcmds` (comp.go lines
396-420): skip hidden children, add each child's matching names. -/
def addSubcmdsChildren (force descr : Bool) (toComplete : GoStr) :
    List (CmdM σ) → CompTaskM σ → Nat × CompTaskM σ
  | [], t => (0, t)
  | child :: rest, t =>
    if CmdM.stateHidden child.state then
      addSubcmdsChildren force descr toComplete rest t
    else
      let names := (goCut child.pattern (gs " ")).1
      let r := subcmdNameLoop force descr toComplete
        child.briefUsage (names.length + 1) names t
      let r2 := addSubcmdsChildren force descr toComplete rest r.2
      (r.1 + r2.1, r2.2)

/-- `CompTask.AddSubcmds` (comp.go lines 385-423).  A `nil` `cmd` uses
the route's target; the nil-target dereference (unreachable through
`AddDefault`, which dereferences the target first) is modelled as the
empty children list. -/
def taskAddSubcmds (tsk : CompTaskM σ) (force descr : Bool)
    (cmd : Option (CmdM σ)) : Nat × CompTaskM σ :=
  if !force && (tsk.state.land
      (compStateHasSubcmds + compStateFailed + compStateDone) != 0) then
    (0, tsk)
  else
    let tsk1 := { tsk with state := tsk.state.lor compStateHasSubcmds }
    let c := match cmd with
      | some c0 => some c0
      | none => routeTarget tsk.route
    let children := match c with
      | none => []
      | some c0 => c0.children
    addSubcmdsChildren force descr tsk.toComplete children tsk1

/-- `CompTask.AddDefault` (comp.go lines 358-378): consult the target
command's completion provider, then — gated by the `want` bits from
`Init` — flag values (with an *empty* default and `addDefaults =
false`), flag names, and sub-commands.  A nil route target panics on
the `.Completion` dereference. -/
def taskAddDefault (tsk : CompTaskM σ) (st : σ) :
    PanicOr (Nat × CompTaskM σ) :=
  match routeTarget tsk.route with
  | none => .error .nilDeref
  | some target =>
    let r0 := match target.completion with
      | none => (0, tsk)
      | some a =>
        let r := compActionSuggest a tsk
        (r.1, { r.2.2 with state := r.2.2.state.lor r.2.1 })
    let r1 := if r0.2.want.land compStateHasFlagValues != 0 then
        let r := taskAddFlagValues r0.2 st false r0.2.flagMissingValue []
          false
        (r0.1 + r.1, r.2)
      else r0
    let r2 := if r1.2.want.land compStateHasFlagNames != 0 then
        let r := taskAddFlagNames r1.2 st false true none
        (r1.1 + r.1, r.2)
      else r1
    let r3 := if r2.2.want.land compStateHasSubcmds != 0 then
        let r := taskAddSubcmds r2.2 false true none
        (r2.1 + r.1, r.2)
      else r2
    .ok r3

/-- The provider-only reading of the flag-values step: what
`AddFlagValues(false, flag, "", false)` does — gate, set the bit,
consult the flag's own completion provider, and nothing else. -/
def flagValuesProviderOnly (tsk : CompTaskM σ) (f : FlagM σ) :
    Nat × CompTaskM σ :=
  if tsk.state.land
      (compStateHasFlagValues + compStateFailed + compStateDone) != 0 then
    (0, tsk)
  else
    fvProviderStep f { tsk with state := tsk.state.lor compStateHasFlagValues }


/-! ### `Cmd.ResolveTarget` (cmd.go lines 287-434) and `CompTask.Init`
(comp.go lines 243-329)

`CmdOptions` handlers in Go receive `opts` and the route as leading
arguments; those self-referential parameters are dropped (handlers
here see the args, the position, and the error).  A `Cmd`'s own `Help`
hook is a non-positive occurrence and is not part of `CmdM`; `pick`
therefore always resolves to the fallback `HandleHelpRequest`. -/

/-- `CmdOptions` (cmd.go). -/
structure CmdOptionsM (σ : Type) where
  parseOptions : Option ParseOptionsM := none
  handleArgError : Option (List GoStr → Int → GoErr → Option GoErr) := none
  routeBuf : RouteM σ := []
  doNotSetFlags : Bool := false
  handleHelpRequest : Option (List GoStr → Int → Option GoErr) := none

/-- The `helpRequested` closure of `ResolveTarget` (cmd.go lines
318-335), evaluated when `helpArgAt ≥ 0`: a present help handler whose
result is nil yields `ErrHelpHandled`; no handler yields
`ErrHelpPending`. -/
def rtHelpRequested (handler : Option (List GoStr → Int → Option GoErr))
    (args : List GoStr) (helpArgAt : Int) : Option GoErr :=
  match handler with
  | some h =>
    match h args helpArgAt with
    | none => some .helpHandled
    | some e => some e
  | none => some (.helpPending (args.getD helpArgAt.toNat []) helpArgAt)

/-- The `errReturn` closure of `ResolveTarget` (cmd.go lines 337-360):
`some e` means return with error `e`; `none` means continue (no error,
or the arg-error handler swallowed it). -/
def rtErrReturn
    (handleArgErr : Option (List GoStr → Int → GoErr → Option GoErr))
    (args : List GoStr) (at_ : Int) (err : Option GoErr) :
    Option (Option GoErr) :=
  match err with
  | none => none
  | some e =>
    match handleArgErr with
    | none => some (some e)
    | some h =>
      match h args at_ e with
      | some e2 => some (some e2)
      | none => none

/-- Outcome of the child-walking loop of `ResolveTarget`: an early
return (with the error to report) or a break into the final parse. -/
inductive RTLoopOut (σ : Type) where
  | ret (route : RouteM σ) (err : Option GoErr) (st : σ)
  | brk (route : RouteM σ) (offset : Nat) (st : σ)

/-- The child-walking loop of `ResolveTarget` (cmd.go lines 363-411).
`route` already ends with the current command `c`; `fuel` bounds the
iterations (the offset strictly grows, so `args.length + 1` is never
exhausted). -/
def resolveLoop (args : List GoStr) (popts : Option ParseOptionsM)
    (handleArgErr : Option (List GoStr → Int → GoErr → Option GoErr))
    (fallbackHelp : Option (List GoStr → Int → Option GoErr))
    (setFlagValue : Bool) :
    Nat → CmdM σ → RouteM σ → Nat → σ → PanicOr (RTLoopOut σ)
  | 0, _, route, offset, st => .ok (.brk route offset st)
  | fuel + 1, c, route, offset, st =>
    if c.children.length == 0 then .ok (.brk route offset st)
    else
      match parseFlagsLowLevel args (fun n => routeFindFlag route n) popts
          offset false true setFlagValue [] st with
      | .error p => .error p
      | .ok r =>
        match rtErrReturn handleArgErr args ((offset : Int) + r.nParsed - 1)
            r.err with
        | some e => .ok (.ret route e r.st)
        | none =>
          let offset2 := offset + r.nParsed.toNat
          if !r.foundPosArg || offset2 ≥ args.length then
            if 0 ≤ r.helpArgAt then
              .ok (.ret route (rtHelpRequested fallbackHelp args r.helpArgAt)
                r.st)
            else .ok (.brk route offset2 r.st)
          else
            match c.children.find?
                (fun ch => ch.isName (args.getD offset2 [])) with
            | none =>
              if 0 ≤ r.helpArgAt then
                .ok (.ret route
                  (rtHelpRequested fallbackHelp args r.helpArgAt) r.st)
              else .ok (.brk route offset2 r.st)
            | some child =>
              if 0 ≤ r.helpArgAt then
                .ok (.ret route
                  (rtHelpRequested fallbackHelp args r.helpArgAt) r.st)
              else
                resolveLoop args popts handleArgErr fallbackHelp setFlagValue
                  fuel child (route ++ [child]) (offset2 + 1) r.st

/-- `Cmd.ResolveTarget` (cmd.go lines 287-434): returns the route, the
positional args, the dash args, the error and the flag storage. -/
def resolveTarget (root : CmdM σ) (opts : Option (CmdOptionsM σ))
    (args : List GoStr) (st : σ) :
    PanicOr (RouteM σ × List GoStr × List GoStr × Option GoErr × σ) :=
  let popts := match opts with
    | none => none
    | some o => o.parseOptions
  let handleArgErr := match opts with
    | none => none
    | some o => o.handleArgError
  let routeBuf := match opts with
    | none => ([] : RouteM σ)
    | some o => o.routeBuf
  let setFlagValue := match opts with
    | none => true
    | some o => !o.doNotSetFlags
  let fallbackHelp := match opts with
    | none => none
    | some o => o.handleHelpRequest
  let posArgs0 := match popts with
    | none => []
    | some po => po.posArgsBuf
  match resolveLoop args popts handleArgErr fallbackHelp setFlagValue
      (args.length + 1) root (routeBuf ++ [root]) 0 st with
  | .error p => .error p
  | .ok (.ret route e st2) => .ok (route, posArgs0, [], e, st2)
  | .ok (.brk route offset st2) =>
    match parseFlagsLowLevel args (fun n => routeFindFlag route n) popts
        offset true false setFlagValue posArgs0 st2 with
    | .error p => .error p
    | .ok r =>
      match rtErrReturn handleArgErr args ((offset : Int) + r.nParsed - 1)
          r.err with
      | some e => .ok (route, r.posArgs, [], e, r.st)
      | none =>
        if 0 ≤ r.helpArgAt then
          .ok (route, r.posArgs, [],
            rtHelpRequested fallbackHelp args r.helpArgAt, r.st)
        else
          .ok (route, r.posArgs,
            (if 0 ≤ r.posDash then args.drop (r.posDash.toNat + 1) else []),
            none, r.st)

/-- `CompTask.Init` (comp.go lines 243-329), building a fresh task
from the zero `CompTask` value.  The latent out-of-range byte access
of the Go code on a `"-=…"` arg (indexing `flag[1]` of a length-1
slice) is modelled as a non-`'-'` placeholder byte. -/
def taskInit (root : CmdM σ) (opts : Option (CmdOptionsM σ)) (at0 : Int)
    (args0 : List GoStr) (st : σ) : PanicOr (CompTaskM σ × σ) :=
  let exePath := if args0.length > 0 then args0.getD 0 [] else []
  let args := if args0.length > 0 then args0.drop 1 else []
  let at1 : Int := if args0.length > 0 then
      (if at0 ≥ 0 then at0 - 1 else at0)
    else 0
  let toComplete := if at1 < (args.length : Int) && 0 ≤ at1 then
      args.getD at1.toNat []
    else []
  let end0 : Int := if at1 > (args.length : Int) || at1 < 0 then
      (args.length : Int)
    else at1
  match resolveTarget root opts (args.take end0.toNat) st with
  | .error p => .error p
  | .ok (route, posArgs, dashArgs, err, st2) =>
    let base : CompTaskM σ :=
      { executablePath := exePath, args := args, at_ := at1,
        toComplete := toComplete, route := route, posArgs := posArgs,
        dashArgs := dashArgs }
    let classified : CompTaskM σ :=
      if toComplete.length == 0 then
        { base with want := compStateHasFlagNames + compStateHasSubcmds }
      else if !goHasPrefix toComplete (gs "-") then
        { base with want := compStateHasSubcmds }
      else if toComplete.length > 1 then
        match toComplete.findIdx? (fun ch => ch == '=') with
        | none =>
          { base with want := compStateHasSubcmds + compStateHasFlagNames }
        | some pos =>
          let flagPart := toComplete.take pos
          let value := toComplete.drop (pos + 1)
          if flagPart.getD 1 ' ' != '-' then
            match routeFindFlag route
                (flagPart.drop (flagPart.length - 1)) with
            | some f =>
              { base with
                  flagMissingValue := some f,
                  flagValuePrefix := toComplete.take (pos + 1),
                  toComplete := value,
                  want := compStateHasFlagValues }
            | none => { base with want := compStateHasSubcmds }
          else if flagPart.length > 2 && !isShorthand (flagPart.drop 2) then
            match routeFindFlag route (flagPart.drop 2) with
            | some f =>
              { base with
                  flagMissingValue := some f,
                  flagValuePrefix := toComplete.take (pos + 1),
                  toComplete := value,
                  want := compStateHasFlagValues }
            | none => { base with want := compStateHasSubcmds }
          else { base with want := compStateHasSubcmds }
      else
        { base with want := compStateHasSubcmds + compStateHasFlagNames }
    match err with
    | some (.flagValueMissing name errAt) =>
      if errAt == end0 - 1 then
        match routeFindFlag route name with
        | some f =>
          .ok ({ base with
                  want := compStateHasFlagValues,
                  flagMissingValue := some f }, st2)
        | none => .ok (classified, st2)
      else .ok (classified, st2)
    | _ => .ok (classified, st2)


/-! ### Frame lemmas for the completion operations (C8, C9)

The add-operations never modify `want`, `route`, `flagMissingValue` or
`toComplete`, and only ever OR bits into `state`. -/

/-- Task evolution: the fields `AddDefault`'s gating logic reads are
preserved and the state only grows. -/
def TaskFrame (t t' : CompTaskM σ) : Prop :=
  t'.want = t.want ∧ t'.route = t.route ∧
  t'.flagMissingValue = t.flagMissingValue ∧
  ∃ e, t'.state = t.state.lor e

theorem taskFrame_rfl (t : CompTaskM σ) : TaskFrame t t :=
  ⟨rfl, rfl, rfl, 0, (Nat.or_zero _).symm⟩

theorem taskFrame_trans {t₁ t₂ t₃ : CompTaskM σ} (h1 : TaskFrame t₁ t₂)
    (h2 : TaskFrame t₂ t₃) : TaskFrame t₁ t₃ := by
  obtain ⟨hw1, hr1, hf1, e1, hs1⟩ := h1
  obtain ⟨hw2, hr2, hf2, e2, hs2⟩ := h2
  refine ⟨hw2.trans hw1, hr2.trans hr1, hf2.trans hf1, e1.lor e2, ?_⟩
  rw [hs2, hs1]
  exact Nat.or_assoc _ _ _

theorem lorZeroLeft (x y : Nat) (h : x ||| y = 0) : x = 0 := by
  apply Nat.eq_of_testBit_eq
  intro i
  have hb := congrArg (fun n => n.testBit i) h
  simp only [Nat.testBit_lor, Nat.zero_testBit, Bool.or_eq_false_iff] at hb
  simp [hb.1]

theorem land_lor_ne_left (a e m : Nat) (h : (a.land m != 0) = true) :
    ((a.lor e).land m != 0) = true := by
  rw [bne_iff_ne] at h ⊢
  show ((a ||| e) &&& m) ≠ 0
  rw [Nat.and_distrib_right]
  intro hz
  exact h (lorZeroLeft _ _ hz)

theorem land_lor_ne_right (a e m : Nat) (h : (e.land m != 0) = true) :
    ((a.lor e).land m != 0) = true := by
  rw [bne_iff_ne] at h ⊢
  show ((a ||| e) &&& m) ≠ 0
  rw [Nat.and_distrib_right]
  intro hz
  rw [Nat.lor_comm] at hz
  exact h (lorZeroLeft _ _ hz)

theorem taskFrame_state_mono {t t' : CompTaskM σ} (h : TaskFrame t t')
    (m : Nat) (hm : (t.state.land m != 0) = true) :
    (t'.state.land m != 0) = true := by
  obtain ⟨-, -, -, e, hs⟩ := h
  rw [hs]
  exact land_lor_ne_left _ _ _ hm

theorem taskFrame_setBit (t : CompTaskM σ) (s : Nat) :
    TaskFrame t { t with state := t.state.lor s } := ⟨rfl, rfl, rfl, s, rfl⟩

theorem taskFrame_lorState {t t' : CompTaskM σ} (h : TaskFrame t t')
    (s : Nat) : TaskFrame t { t' with state := t'.state.lor s } :=
  taskFrame_trans h (taskFrame_setBit t' s)

theorem taskAdd_frame (t : CompTaskM σ) (force : Bool)
    (items : List CompItemM) : TaskFrame t (taskAdd t force items).2 := by
  rw [taskAdd]
  split
  · exact taskFrame_rfl t
  · exact ⟨rfl, rfl, rfl, 0, (Nat.or_zero _).symm⟩

theorem taskAddMatched_frame (t : CompTaskM σ) (force : Bool)
    (items : List CompItemM) :
    TaskFrame t (taskAddMatched t force items).2 := by
  rw [taskAddMatched]
  split
  · exact taskFrame_rfl t
  · exact ⟨rfl, rfl, rfl, 0, (Nat.or_zero _).symm⟩

theorem taskAddFiles_frame (t : CompTaskM σ) (force : Bool)
    (globs : List GoStr) : TaskFrame t (taskAddFiles t force globs).2 := by
  rw [taskAddFiles]
  split
  · exact taskFrame_rfl t
  · dsimp only
    split
    · exact taskFrame_trans (taskFrame_setBit t _)
        (taskFrame_trans (taskAdd_frame _ _ _) (taskAdd_frame _ _ _))
    · exact taskFrame_trans (taskFrame_setBit t _) (taskAdd_frame _ _ _)

theorem taskAddDirs_frame (t : CompTaskM σ) (force : Bool)
    (globs : List GoStr) : TaskFrame t (taskAddDirs t force globs).2 := by
  rw [taskAddDirs]
  split
  · exact taskFrame_rfl t
  · dsimp only
    split
    · exact taskFrame_trans (taskFrame_setBit t _)
        (taskFrame_trans (taskAdd_frame _ _ _) (taskAdd_frame _ _ _))
    · exact taskFrame_trans (taskFrame_setBit t _) (taskAdd_frame _ _ _)

theorem compActionSuggest_frame (a : CompActionM) (t : CompTaskM σ) :
    TaskFrame t (compActionSuggest a t).2.2 := by
  cases a with
  | disable => exact taskFrame_setBit t _
  | static s w z =>
    rw [compActionSuggest]
    dsimp only
    split
    · exact taskFrame_rfl t
    · exact taskAddMatched_frame t false s
  | files => exact taskAddFiles_frame t false []
  | dirs => exact taskAddDirs_frame t false []

theorem fvProviderStep_frame (f : FlagM σ) (t : CompTaskM σ) :
    TaskFrame t (fvProviderStep f t).2 := by
  rw [fvProviderStep]
  split
  · exact taskFrame_rfl t
  · exact taskFrame_lorState (compActionSuggest_frame _ t) _

theorem bracketLoop_frame (force vc : Bool) :
    ∀ (fuel i : Nat) (d : GoStr) (t : CompTaskM σ),
      TaskFrame t (bracketLoop (σ := σ) force vc fuel i d t).2
  | 0, _, _, t => taskFrame_rfl t
  | fuel + 1, i, d, t => by
    rw [bracketLoop]
    split
    · exact taskFrame_rfl t
    · dsimp only
      split
      · exact bracketLoop_frame force vc fuel _ _ t
      · exact taskFrame_trans (taskAddMatched_frame t force _)
          (bracketLoop_frame force vc fuel _ _ _)

theorem fvDefaultsStep_frame (st : σ) (f : FlagM σ) (d : GoStr)
    (force : Bool) (r1 : Nat × CompTaskM σ) :
    TaskFrame r1.2 (fvDefaultsStep st f d force r1).2 := by
  rw [fvDefaultsStep]
  split
  · exact taskFrame_rfl _
  · split
    · exact bracketLoop_frame _ _ _ _ _ _
    · split
      · exact taskAddMatched_frame _ _ _
      · exact taskFrame_rfl _

theorem fvDeduceStep_frame (st : σ) (f : FlagM σ) (force : Bool)
    (r2 : Nat × CompTaskM σ) :
    TaskFrame r2.2 (fvDeduceStep st f force r2).2 := by
  rw [fvDeduceStep]
  split
  · split
    · exact taskAddMatched_frame _ _ _
    · exact taskFrame_rfl _
  · exact taskFrame_rfl _

theorem addFlagValuesCore_frame (st : σ) (f : FlagM σ) (d : GoStr)
    (force addDefaults : Bool) (t : CompTaskM σ) :
    TaskFrame t (addFlagValuesCore st f d force addDefaults t).2 := by
  rw [addFlagValuesCore]
  split
  · exact fvProviderStep_frame f t
  · exact taskFrame_trans (fvProviderStep_frame f t)
      (taskFrame_trans (fvDefaultsStep_frame st f d force _)
        (fvDeduceStep_frame st f force _))

theorem taskAddFlagValues_frame (t : CompTaskM σ) (st : σ) (force : Bool)
    (flag : Option (FlagM σ)) (d : GoStr) (addDefaults : Bool) :
    TaskFrame t (taskAddFlagValues t st force flag d addDefaults).2 := by
  rw [taskAddFlagValues.eq_def]
  split
  · exact taskFrame_rfl t
  · split
    · exact taskFrame_rfl t
    · exact taskFrame_trans (taskFrame_setBit t _)
        (addFlagValuesCore_frame _ _ _ _ _ _)


theorem nthLoop_frame (nth : Nat → Option FlagInfoM)
    (body : FlagInfoM → CompTaskM σ → Nat × CompTaskM σ)
    (hbody : ∀ info t, TaskFrame t (body info t).2) :
    ∀ (fuel i : Nat) (t : CompTaskM σ),
      TaskFrame t (nthLoop nth body fuel i t).2
  | 0, _, t => taskFrame_rfl t
  | fuel + 1, i, t => by
    rw [nthLoop]
    split
    · exact taskFrame_rfl t
    · exact taskFrame_trans (hbody _ t)
        (nthLoop_frame nth body hbody fuel _ _)

theorem flagNamesAllBody_frame (st : σ) (force descr : Bool)
    (find : GoStr → Option (FlagM σ)) (info : FlagInfoM) (t : CompTaskM σ) :
    TaskFrame t (flagNamesAllBody st force descr find info t).2 := by
  rw [flagNamesAllBody]
  split
  · exact taskFrame_rfl t
  · split
    · exact taskFrame_rfl t
    · dsimp only
      split
      · refine taskFrame_trans ?_ (taskAdd_frame _ _ _)
        split
        · exact taskAdd_frame _ _ _
        · exact taskFrame_rfl t
      · split
        · exact taskAdd_frame _ _ _
        · exact taskFrame_rfl t

theorem flagNamesLongBody_frame (st : σ) (force descr : Bool)
    (find : GoStr → Option (FlagM σ)) (pre : GoStr) (info : FlagInfoM)
    (t : CompTaskM σ) :
    TaskFrame t (flagNamesLongBody st force descr find pre info t).2 := by
  rw [flagNamesLongBody]
  split
  · exact taskFrame_rfl t
  · split
    · exact taskFrame_rfl t
    · split
      · exact taskFrame_rfl t
      · exact taskAdd_frame _ _ _

theorem flagNamesShortBody_frame (st : σ) (force descr : Bool)
    (find : GoStr → Option (FlagM σ)) (tc : GoStr) (info : FlagInfoM)
    (t : CompTaskM σ) :
    TaskFrame t (flagNamesShortBody st force descr find tc info t).2 := by
  rw [flagNamesShortBody.eq_def]
  dsimp only
  generalize (if isShorthand info.shorthand = true then info.shorthand
    else if isShorthand info.name = true then info.name else []) = sh
  split
  · exact taskFrame_rfl t
  · split
    · exact taskFrame_rfl t
    · split
      · exact taskFrame_rfl t
      · exact taskAdd_frame _ _ _

theorem taskAddFlagNames_frame (t : CompTaskM σ) (st : σ)
    (force descr : Bool) (flags : Option (FlagIndexerM σ)) :
    TaskFrame t (taskAddFlagNames t st force descr flags).2 := by
  rw [taskAddFlagNames.eq_def]
  split
  · exact taskFrame_rfl t
  · dsimp only
    split
    · exact taskFrame_trans (taskFrame_setBit t _)
        (nthLoop_frame _ _ (flagNamesAllBody_frame st force descr _) _ _ _)
    · split
      · exact taskFrame_trans (taskFrame_setBit t _)
          (nthLoop_frame _ _ (flagNamesLongBody_frame st force descr _ _)
            _ _ _)
      · split
        · exact taskFrame_trans (taskFrame_setBit t _)
            (nthLoop_frame _ _ (flagNamesShortBody_frame st force descr _ _)
              _ _ _)
        · exact taskFrame_setBit t _

theorem subcmdNameLoop_frame (force descr : Bool) (tc bu : GoStr) :
    ∀ (fuel : Nat) (names : GoStr) (t : CompTaskM σ),
      TaskFrame t (subcmdNameLoop (σ := σ) force descr tc bu fuel names t).2
  | 0, _, t => taskFrame_rfl t
  | fuel + 1, names, t => by
    rw [subcmdNameLoop]
    split
    · exact taskFrame_rfl t
    · dsimp only
      split
      · exact subcmdNameLoop_frame force descr tc bu fuel _ t
      · exact taskFrame_trans (taskAdd_frame _ _ _)
          (subcmdNameLoop_frame force descr tc bu fuel _ _)

theorem addSubcmdsChildren_frame (force descr : Bool) (tc : GoStr) :
    ∀ (children : List (CmdM σ)) (t : CompTaskM σ),
      TaskFrame t (addSubcmdsChildren force descr tc children t).2
  | [], t => taskFrame_rfl t
  | child :: rest, t => by
    rw [addSubcmdsChildren]
    split
    · exact addSubcmdsChildren_frame force descr tc rest t
    · exact taskFrame_trans (subcmdNameLoop_frame force descr tc _ _ _ t)
        (addSubcmdsChildren_frame force descr tc rest _)

theorem taskAddSubcmds_frame (t : CompTaskM σ) (force descr : Bool)
    (cmd : Option (CmdM σ)) :
    TaskFrame t (taskAddSubcmds t force descr cmd).2 := by
  rw [taskAddSubcmds.eq_def]
  split
  · exact taskFrame_rfl t
  · exact taskFrame_trans (taskFrame_setBit t _)
      (addSubcmdsChildren_frame force descr _ _ _)

/-! ### Step post-conditions and short-circuits (C9) -/

theorem taskAddFlagValues_post (t : CompTaskM σ) (st : σ) (f : FlagM σ)
    (d : GoStr) (ad : Bool) :
    ((taskAddFlagValues t st false (some f) d ad).2.state.land
      (compStateHasFlagValues + compStateFailed + compStateDone) != 0)
      = true := by
  rw [taskAddFlagValues.eq_def]
  dsimp only
  split
  case isTrue h => simpa using h
  case isFalse h =>
    refine taskFrame_state_mono (addFlagValuesCore_frame _ _ _ _ _ _) _ ?_
    exact land_lor_ne_right _ _ _ (by decide)

theorem taskAddFlagNames_post (t : CompTaskM σ) (st : σ) (descr : Bool)
    (flags : Option (FlagIndexerM σ)) :
    ((taskAddFlagNames t st false descr flags).2.state.land
      (compStateHasFlagNames + compStateFailed + compStateDone) != 0)
      = true := by
  rw [taskAddFlagNames.eq_def]
  split
  case isTrue h => simpa using h
  case isFalse h =>
    have hb : ((t.state.lor compStateHasFlagNames).land
        (compStateHasFlagNames + compStateFailed + compStateDone) != 0)
        = true := land_lor_ne_right _ _ _ (by decide)
    dsimp only
    split
    · exact taskFrame_state_mono
        (nthLoop_frame _ _ (flagNamesAllBody_frame st false descr _) _ _ _)
        _ hb
    · split
      · exact taskFrame_state_mono
          (nthLoop_frame _ _ (flagNamesLongBody_frame st false descr _ _)
            _ _ _) _ hb
      · split
        · exact taskFrame_state_mono
            (nthLoop_frame _ _ (flagNamesShortBody_frame st false descr _ _)
              _ _ _) _ hb
        · exact hb

theorem taskAddSubcmds_post (t : CompTaskM σ) (descr : Bool)
    (cmd : Option (CmdM σ)) :
    ((taskAddSubcmds t false descr cmd).2.state.land
      (compStateHasSubcmds + compStateFailed + compStateDone) != 0)
      = true := by
  rw [taskAddSubcmds.eq_def]
  split
  case isTrue h => simpa using h
  case isFalse h =>
    have hb : ((t.state.lor compStateHasSubcmds).land
        (compStateHasSubcmds + compStateFailed + compStateDone) != 0)
        = true := land_lor_ne_right _ _ _ (by decide)
    exact taskFrame_state_mono (addSubcmdsChildren_frame false descr _ _ _)
      _ hb

theorem taskAddFlagValues_gated (t : CompTaskM σ) (st : σ) (d : GoStr)
    (ad : Bool)
    (h : t.flagMissingValue = none ∨
      (t.state.land (compStateHasFlagValues + compStateFailed +
        compStateDone) != 0) = true) :
    taskAddFlagValues t st false t.flagMissingValue d ad = (0, t) := by
  rcases h with h | h
  · rw [h, taskAddFlagValues]
  · cases hm : t.flagMissingValue with
    | none => rw [taskAddFlagValues]
    | some f =>
      rw [taskAddFlagValues]
      simp [h]

theorem taskAddFlagNames_gated (t : CompTaskM σ) (st : σ) (descr : Bool)
    (flags : Option (FlagIndexerM σ))
    (h : (t.state.land (compStateHasFlagNames + compStateFailed +
      compStateDone) != 0) = true) :
    taskAddFlagNames t st false descr flags = (0, t) := by
  rw [taskAddFlagNames.eq_def]
  simp [h]

theorem taskAddSubcmds_gated (t : CompTaskM σ) (descr : Bool)
    (cmd : Option (CmdM σ))
    (h : (t.state.land (compStateHasSubcmds + compStateFailed +
      compStateDone) != 0) = true) :
    taskAddSubcmds t false descr cmd = (0, t) := by
  rw [taskAddSubcmds.eq_def]
  simp [h]

/-- `AddFlagValues(false, flag, "", false)` is exactly the
provider-only consultation. -/
theorem taskAddFlagValues_noDefaults (t : CompTaskM σ) (st : σ)
    (flag : Option (FlagM σ)) :
    taskAddFlagValues t st false flag [] false =
      match flag with
      | none => (0, t)
      | some f => flagValuesProviderOnly t f := by
  cases flag with
  | none => rw [taskAddFlagValues]
  | some f =>
    rw [taskAddFlagValues]
    dsimp only
    rw [flagValuesProviderOnly.eq_def]
    simp only [Bool.not_false, Bool.true_and]
    split
    · rfl
    · rw [addFlagValuesCore]
      simp only [Bool.not_false, if_true]

theorem flagValuesProviderOnly_frame (t : CompTaskM σ) (f : FlagM σ) :
    TaskFrame t (flagValuesProviderOnly t f).2 := by
  rw [flagValuesProviderOnly.eq_def]
  split
  · exact taskFrame_rfl t
  · exact taskFrame_trans (taskFrame_setBit t _) (fvProviderStep_frame f _)


/-- What one `AddDefault` call on a task whose target command has no
completion provider guarantees: the gating fields are preserved, the
state only grows, and each wanted category's suppression bit (or an
already-blocking bit) is present afterwards. -/
theorem taskAddDefault_post (tsk : CompTaskM σ) (st : σ) (target : CmdM σ)
    (r1 : Nat × CompTaskM σ)
    (htgt : routeTarget tsk.route = some target)
    (hc : target.completion = none)
    (h1 : taskAddDefault tsk st = .ok r1) :
    TaskFrame tsk r1.2 ∧
    ((tsk.want.land compStateHasFlagValues != 0) = true →
      tsk.flagMissingValue = none ∨
      (r1.2.state.land (compStateHasFlagValues + compStateFailed +
        compStateDone) != 0) = true) ∧
    ((tsk.want.land compStateHasFlagNames != 0) = true →
      (r1.2.state.land (compStateHasFlagNames + compStateFailed +
        compStateDone) != 0) = true) ∧
    ((tsk.want.land compStateHasSubcmds != 0) = true →
      (r1.2.state.land (compStateHasSubcmds + compStateFailed +
        compStateDone) != 0) = true) := by
  rw [taskAddDefault.eq_def, htgt] at h1
  dsimp only at h1
  rw [hc] at h1
  dsimp only at h1
  injection h1 with h1e
  subst h1e
  by_cases h8 : (tsk.want.land compStateHasFlagValues != 0) = true
  · rw [if_pos h8]
    dsimp only
    have hwX : (taskAddFlagValues tsk st false tsk.flagMissingValue []
        false).2.want = tsk.want :=
      (taskAddFlagValues_frame tsk st false tsk.flagMissingValue [] false).1
    rw [hwX]
    by_cases h4 : (tsk.want.land compStateHasFlagNames != 0) = true
    · rw [if_pos h4]
      dsimp only
      have hwY : (taskAddFlagNames (taskAddFlagValues tsk st false
          tsk.flagMissingValue [] false).2 st false true none).2.want =
          (taskAddFlagValues tsk st false tsk.flagMissingValue []
            false).2.want :=
        (taskAddFlagNames_frame _ st false true none).1
      rw [hwY, hwX]
      by_cases h16 : (tsk.want.land compStateHasSubcmds != 0) = true
      · rw [if_pos h16]
        dsimp only
        refine ⟨?_, ?_, ?_, ?_⟩
        · exact taskFrame_trans
            (taskAddFlagValues_frame tsk st false tsk.flagMissingValue
              [] false)
            (taskFrame_trans (taskAddFlagNames_frame _ st false true none)
              (taskAddSubcmds_frame _ false true none))
        · intro _
          cases hm : tsk.flagMissingValue with
          | none => exact Or.inl rfl
          | some f =>
            right
            exact taskFrame_state_mono (taskAddSubcmds_frame _ false true
                none) _
              (taskFrame_state_mono (taskAddFlagNames_frame _ st false true
                none) _ (taskAddFlagValues_post tsk st f [] false))
        · intro _
          exact taskFrame_state_mono (taskAddSubcmds_frame _ false true
            none) _ (taskAddFlagNames_post _ st true none)
        · intro _
          exact taskAddSubcmds_post _ true none
      · rw [if_neg h16]
        refine ⟨?_, ?_, ?_, ?_⟩
        · exact taskFrame_trans
            (taskAddFlagValues_frame tsk st false tsk.flagMissingValue
              [] false)
            (taskAddFlagNames_frame _ st false true none)
        · intro _
          cases hm : tsk.flagMissingValue with
          | none => exact Or.inl rfl
          | some f =>
            right
            exact taskFrame_state_mono (taskAddFlagNames_frame _ st false
              true none) _ (taskAddFlagValues_post tsk st f [] false)
        · intro _
          exact taskAddFlagNames_post _ st true none
        · intro hw
          exact absurd hw h16
    · rw [if_neg h4]
      dsimp only
      rw [hwX]
      by_cases h16 : (tsk.want.land compStateHasSubcmds != 0) = true
      · rw [if_pos h16]
        dsimp only
        refine ⟨?_, ?_, ?_, ?_⟩
        · exact taskFrame_trans
            (taskAddFlagValues_frame tsk st false tsk.flagMissingValue
              [] false)
            (taskAddSubcmds_frame _ false true none)
        · intro _
          cases hm : tsk.flagMissingValue with
          | none => exact Or.inl rfl
          | some f =>
            right
            exact taskFrame_state_mono (taskAddSubcmds_frame _ false true
              none) _ (taskAddFlagValues_post tsk st f [] false)
        · intro hw
          exact absurd hw h4
        · intro _
          exact taskAddSubcmds_post _ true none
      · rw [if_neg h16]
        refine ⟨?_, ?_, ?_, ?_⟩
        · exact taskAddFlagValues_frame tsk st false tsk.flagMissingValue
            [] false
        · intro _
          cases hm : tsk.flagMissingValue with
          | none => exact Or.inl rfl
          | some f =>
            right
            exact taskAddFlagValues_post tsk st f [] false
        · intro hw
          exact absurd hw h4
        · intro hw
          exact absurd hw h16
  · rw [if_neg h8]
    dsimp only
    by_cases h4 : (tsk.want.land compStateHasFlagNames != 0) = true
    · rw [if_pos h4]
      dsimp only
      by_cases h16 : (tsk.want.land compStateHasSubcmds != 0) = true
      · rw [(taskAddFlagNames_frame tsk st false true none).1, if_pos h16]
        dsimp only
        refine ⟨?_, ?_, ?_, ?_⟩
        · exact taskFrame_trans (taskAddFlagNames_frame tsk st false true
            none) (taskAddSubcmds_frame _ false true none)
        · intro hw
          exact absurd hw h8
        · intro _
          exact taskFrame_state_mono (taskAddSubcmds_frame _ false true
            none) _ (taskAddFlagNames_post tsk st true none)
        · intro _
          exact taskAddSubcmds_post _ true none
      · rw [(taskAddFlagNames_frame tsk st false true none).1, if_neg h16]
        refine ⟨?_, ?_, ?_, ?_⟩
        · exact taskAddFlagNames_frame tsk st false true none
        · intro hw
          exact absurd hw h8
        · intro _
          exact taskAddFlagNames_post tsk st true none
        · intro hw
          exact absurd hw h16
    · rw [if_neg h4]
      by_cases h16 : (tsk.want.land compStateHasSubcmds != 0) = true
      · rw [if_pos h16]
        dsimp only
        refine ⟨?_, ?_, ?_, ?_⟩
        · exact taskAddSubcmds_frame tsk false true none
        · intro hw
          exact absurd hw h8
        · intro hw
          exact absurd hw h4
        · intro _
          exact taskAddSubcmds_post tsk true none
      · rw [if_neg h16]
        refine ⟨?_, ?_, ?_, ?_⟩
        · exact taskFrame_rfl tsk
        · intro hw
          exact absurd hw h8
        · intro hw
          exact absurd hw h4
        · intro hw
          exact absurd hw h16


/-! ### C8, C9: claims about AddDefault -/

/-- A flag with no completion provider of its own. -/
def c8flag : FlagM Unit := { decode := fun _ _ _ _ s => (none, s) }

/-- An indexer whose only flag carries the bracketed default value
`"[bar, far]"` in its `FlagInfo`. -/
def c8indexer : FlagIndexerM Unit :=
  { find := fun n => if n == gs "foo" then some c8flag else none,
    nthList := some [{ name := gs "foo", defaultValue := gs "[bar, far]" }] }

def c8root : CmdM Unit :=
  .mk (gs "test") [] (some c8indexer) none none none [] 0

/-- A task wanting flag values for `c8flag`, completing the prefix
`"b"` (which the bracketed default `bar` would match). -/
def c8task : CompTaskM Unit :=
  { route := [c8root], want := compStateHasFlagValues,
    flagMissingValue := some c8flag, toComplete := gs "b" }

/-- `AddDefault` on `c8task` adds no items, although the flag's
`FlagInfo.DefaultValue` is the bracketed list `"[bar, far]"` whose
entry `bar` matches the prefix being completed — as the direct
`AddFlagValues(…, "[bar, far]", addDefaults = true)` call (adding
exactly `bar`) demonstrates.  `AddDefault` passes an empty default and
`addDefaults = false`, so `FlagInfo.DefaultValue` is never consulted. -/
theorem claim_C8_counterexample :
    (taskAddDefault c8task ()).map (fun r => r.1) = .ok 0 ∧
    (indexerNth c8indexer 0).map (fun i => i.defaultValue) =
      some (gs "[bar, far]") ∧
    c8flag.selfComp = none ∧ c8flag.extraComp = none ∧
    c8task.want = compStateHasFlagValues ∧
    (taskAddFlagValues c8task () false (some c8flag) (gs "[bar, far]")
      true).1 = 1 ∧
    (taskAddFlagValues c8task () false (some c8flag) (gs "[bar, far]")
      true).2.result =
      [{ value := gs "bar", description := gs "default value",
         kind := .flagValue }] :=
  ⟨rfl, rfl, rfl, rfl, rfl, rfl, rfl⟩

/-- **C8** (amended).  When a completion task wants flag values (and
the target command has no completion provider of its own),
`AddDefault` consults only the flag's own completion provider — the
flag cast to `CompAction`, or its `Extra()` payload so cast: it calls
`AddFlagValues` with an empty default and `addDefaults = false`, so
no default-value suggestions derived from `FlagInfo.DefaultValue` are
added.  Bracketed-list expansion and prefix filtering happen only in
direct `AddFlagValues` calls with `addDefaults = true`. -/
theorem claim_C8_flag_value_defaults (σ : Type) (tsk : CompTaskM σ)
    (st : σ) (target : CmdM σ)
    (htgt : routeTarget tsk.route = some target)
    (hc : target.completion = none)
    (hw : tsk.want = compStateHasFlagValues) :
    taskAddDefault tsk st = .ok (match tsk.flagMissingValue with
      | none => (0, tsk)
      | some f => flagValuesProviderOnly tsk f) := by
  rw [taskAddDefault.eq_def, htgt]
  dsimp only
  rw [hc]
  dsimp only
  rw [hw]
  have g88 : (compStateHasFlagValues.land compStateHasFlagValues != 0)
      = true := by decide
  have g84 : ¬ (compStateHasFlagValues.land compStateHasFlagNames != 0)
      = true := by decide
  have g816 : ¬ (compStateHasFlagValues.land compStateHasSubcmds != 0)
      = true := by decide
  rw [if_pos g88, taskAddFlagValues_noDefaults]
  cases hm : tsk.flagMissingValue with
  | none =>
    dsimp only
    rw [hw, if_neg g84]
    dsimp only
    rw [hw, if_neg g816]
  | some f =>
    dsimp only
    rw [(flagValuesProviderOnly_frame tsk f).1, hw, if_neg g84]
    dsimp only
    rw [(flagValuesProviderOnly_frame tsk f).1, hw, if_neg g816]
    rw [Nat.zero_add]

theorem claim_C8_flag_value_defaults_witness :
    taskAddDefault c8task () =
      .ok (match c8task.flagMissingValue with
        | none => ((0 : Nat), c8task)
        | some f => flagValuesProviderOnly c8task f) :=
  claim_C8_flag_value_defaults Unit c8task () c8root rfl rfl rfl

/-- The root command of the C9 counterexample: its completion provider
statically suggests `aha` with no `Want` gating. -/
def c9root : CmdM Unit :=
  .mk (gs "test") [] none none none
    (some (.static [{ value := gs "aha" }] 0 0)) [] 0

/-- A provider-less root command. -/
def c9plain : CmdM Unit :=
  .mk (gs "test") [] none none none none [] 0

/-- The task `Init` builds for `c9plain` on `["./test", ""]` at
position 1 (completing the next arg after the executable). -/
def c9taskW : CompTaskM Unit :=
  { executablePath := gs "./test", args := [[]], at_ := 0,
    toComplete := [], route := [c9plain], posArgs := [], dashArgs := [],
    flagMissingValue := none, flagValuePrefix := [], state := 0,
    want := compStateHasFlagNames + compStateHasSubcmds, result := [] }

/-- `AddDefault` is *not* idempotent on every fresh `Init`-built task:
with a completion provider on the target (statically suggesting
`aha`), the first call adds one item and the second call adds one
again — the provider consultation is not gated by the category state
bits. -/
theorem claim_C9_counterexample :
    ((taskInit c9root none 1 [gs "./test", []] ()).bind (fun r =>
      (taskAddDefault r.1 ()).bind (fun r1 =>
        (taskAddDefault r1.2 ()).map (fun r2 => (r1.1, r2.1))))) =
      .ok (1, 1) := rfl

/-- **C9** (amended).  For a fresh `Init`-built task whose resolved
target command has no completion provider of its own, a second
`AddDefault` call adds zero items: the category state bits set (or
already present) after the first call suppress the flag-value,
flag-name and sub-command additions, and there is no provider to
re-run. -/
theorem claim_C9_addDefault_idempotent (σ : Type) (root : CmdM σ)
    (opts : Option (CmdOptionsM σ)) (at0 : Int) (args0 : List GoStr)
    (st0 st2 : σ) (tsk : CompTaskM σ) (target : CmdM σ)
    (r1 : Nat × CompTaskM σ)
    (hInit : taskInit root opts at0 args0 st0 = .ok (tsk, st2))
    (htgt : routeTarget tsk.route = some target)
    (hc : target.completion = none)
    (h1 : taskAddDefault tsk st2 = .ok r1) :
    (taskAddDefault r1.2 st2).map (fun r => r.1) = .ok 0 := by
  obtain ⟨⟨hw, hr, hf, e, hs⟩, hfv, hnm, hsc⟩ :=
    taskAddDefault_post tsk st2 target r1 htgt hc h1
  rw [taskAddDefault.eq_def, hr, htgt]
  dsimp only
  rw [hc]
  dsimp only
  rw [hw]
  by_cases h8 : (tsk.want.land compStateHasFlagValues != 0) = true
  · rw [if_pos h8]
    have hz : taskAddFlagValues r1.2 st2 false r1.2.flagMissingValue []
        false = (0, r1.2) := by
      apply taskAddFlagValues_gated
      rcases hfv h8 with hn | hb
      · left
        rw [hf, hn]
      · right
        exact hb
    rw [hz]
    dsimp only
    rw [hw]
    by_cases h4 : (tsk.want.land compStateHasFlagNames != 0) = true
    · rw [if_pos h4, taskAddFlagNames_gated r1.2 st2 true none (hnm h4)]
      dsimp only
      rw [hw]
      by_cases h16 : (tsk.want.land compStateHasSubcmds != 0) = true
      · rw [if_pos h16, taskAddSubcmds_gated r1.2 true none (hsc h16)]
        rfl
      · rw [if_neg h16]
        rfl
    · rw [if_neg h4]
      dsimp only
      rw [hw]
      by_cases h16 : (tsk.want.land compStateHasSubcmds != 0) = true
      · rw [if_pos h16, taskAddSubcmds_gated r1.2 true none (hsc h16)]
        rfl
      · rw [if_neg h16]
        rfl
  · rw [if_neg h8]
    dsimp only
    rw [hw]
    by_cases h4 : (tsk.want.land compStateHasFlagNames != 0) = true
    · rw [if_pos h4, taskAddFlagNames_gated r1.2 st2 true none (hnm h4)]
      dsimp only
      rw [hw]
      by_cases h16 : (tsk.want.land compStateHasSubcmds != 0) = true
      · rw [if_pos h16, taskAddSubcmds_gated r1.2 true none (hsc h16)]
        rfl
      · rw [if_neg h16]
        rfl
    · rw [if_neg h4]
      dsimp only
      rw [hw]
      by_cases h16 : (tsk.want.land compStateHasSubcmds != 0) = true
      · rw [if_pos h16, taskAddSubcmds_gated r1.2 true none (hsc h16)]
        rfl
      · rw [if_neg h16]
        rfl

theorem claim_C9_addDefault_idempotent_witness :
    (taskAddDefault ({ c9taskW with
        state := compStateHasFlagNames + compStateHasSubcmds } :
      CompTaskM Unit) ()).map (fun r => r.1) = .ok 0 :=
  claim_C9_addDefault_idempotent Unit c9plain none 1 [gs "./test", []]
    () () c9taskW c9plain
    (0, { c9taskW with
      state := compStateHasFlagNames + compStateHasSubcmds })
    rfl rfl rfl rfl

end CliV
